import Mathlib

/-!
Verification of the dp-plugins-repository-viewer application core:
the localStorage-backed response caches (github/bstats services), the
bStats chart-data normalizer, plugin-name matching, and the settings
validation logic.  JavaScript runtime values are embedded as `JVal`
(JSON-like trees with rational numbers standing for the finite JS
floats), JS numbers-possibly-NaN as `JNum := Option ℚ` (`none` = NaN),
and `localStorage` as an association list from keys to serialized text.
-/

set_option maxRecDepth 10000

/-- JSON-like runtime values.  Numbers are modeled as rationals
(every finite JS float is a rational); `NaN`/`Infinity` cannot occur in
values produced by `JSON.parse`, so `num` carries a plain `ℚ`. -/
inductive JVal where
  | null : JVal
  | bool (b : Bool) : JVal
  | num (q : ℚ) : JVal
  | str (s : String) : JVal
  | arr (elems : List JVal) : JVal
  | obj (fields : List (String × JVal)) : JVal

/-- A JavaScript number: `none` is `NaN`, `some q` a finite value. -/
abbrev JNum := Option ℚ

/-- Decimal digit to its character. -/
def digitToChar (d : ℕ) : Char := Char.ofNat (48 + d)

/-- Character to decimal digit, `none` for non-digits. -/
def charToDigit (c : Char) : Option ℕ :=
  if 48 ≤ c.toNat ∧ c.toNat ≤ 57 then some (c.toNat - 48) else none

/-- Little-endian base-10 digits, by fuel-bounded structural recursion
(kernel-reducible, unlike the well-founded `Nat.digits`). -/
def natDigitsAux : ℕ → ℕ → List ℕ
  | 0, _ => []
  | _ + 1, 0 => []
  | fuel + 1, n + 1 => (n + 1) % 10 :: natDigitsAux fuel ((n + 1) / 10)

/-- Little-endian base-10 digits of `n`. -/
def natDigits (n : ℕ) : List ℕ := natDigitsAux n n

/-- Most-significant-first decimal digits of `m`, left-padded with zeros
to length at least `k + 1` (so a decimal point can split off `k`
fractional digits and leave a nonempty integer part). -/
def padList (m k : ℕ) : List ℕ :=
  List.replicate (k + 1 - (natDigits m).length) 0 ++ (natDigits m).reverse

/-- Character form of `padList`. -/
def padDigitsN (m k : ℕ) : List Char := (padList m k).map digitToChar

/-- Exponent of `p` in `n` (fuel-bounded trial division). -/
def pAdicAux : ℕ → ℕ → ℕ → ℕ
  | 0, _, _ => 0
  | fuel + 1, p, n => if 2 ≤ p ∧ p ∣ n ∧ n ≠ 0 then pAdicAux fuel p (n / p) + 1 else 0

/-- Exponent of `p` in `n`. -/
def pAdic (p n : ℕ) : ℕ := pAdicAux n p n

/-- Number of decimal digits needed for denominator `d`. -/
def decExp (d : ℕ) : ℕ := max (pAdic 2 d) (pAdic 5 d)

/-- A rational has a finite decimal expansion iff its denominator divides
a power of ten.  Every finite JS float satisfies this (denominators are
powers of two), so this carves out exactly the numbers a JS value can hold. -/
def DecimalDen (q : ℚ) : Prop := q.den ∣ 10 ^ decExp q.den

instance (q : ℚ) : Decidable (DecimalDen q) := by unfold DecimalDen; infer_instance

/-- Decimal text of a nonnegative rational with finite decimal expansion
(integer digits, and a point plus `k` fractional digits when `k ≠ 0`),
as emitted by `JSON.stringify` for such a number. -/
def qCharsNN (q : ℚ) : List Char :=
  let k := decExp q.den
  let m := (q * (10 : ℚ) ^ k).num.toNat
  let ds := padDigitsN m k
  if k = 0 then ds else ds.take (ds.length - k) ++ '.' :: ds.drop (ds.length - k)

/-- Decimal text of a rational (minus sign for negatives). -/
def qChars (q : ℚ) : List Char :=
  if q < 0 then '-' :: qCharsNN (-q) else qCharsNN q

/-- Greedily read decimal digits off the front of the input. -/
def spanDigits : List Char → List ℕ × List Char
  | [] => ([], [])
  | c :: rest =>
    match charToDigit c with
    | some d => ((spanDigits rest).1.cons d, (spanDigits rest).2)
    | none => ([], c :: rest)

/-- Value of a most-significant-first digit list. -/
def digitsVal (ds : List ℕ) : ℕ := Nat.ofDigits 10 ds.reverse

/-- Parse an unsigned JSON number (integer digits, optional fraction). -/
def parseNumNN (cs : List Char) : Option (ℚ × List Char) :=
  match spanDigits cs with
  | ([], _) => none
  | (ds, rest) =>
    match rest with
    | '.' :: rest2 =>
      match spanDigits rest2 with
      | ([], _) => none
      | (fs, rest3) =>
        some ((digitsVal (ds ++ fs) : ℚ) / (10 : ℚ) ^ fs.length, rest3)
    | _ => some ((digitsVal ds : ℚ), rest)

/-- Parse a JSON number (optional minus sign, then unsigned number). -/
def parseNum (cs : List Char) : Option (ℚ × List Char) :=
  match cs with
  | [] => none
  | c :: rest => if c = '-' then (parseNumNN rest).map (fun p => (-p.1, p.2)) else parseNumNN (c :: rest)

/-- Input positions where a digit run must end: end of input or a
non-digit character. -/
def DigitStop (rest : List Char) : Prop :=
  match rest with
  | [] => True
  | c :: _ => charToDigit c = none

/-- Input positions where a number literal must end: end of input or a
non-digit character other than the decimal point. -/
def NumStop (rest : List Char) : Prop :=
  match rest with
  | [] => True
  | c :: _ => charToDigit c = none ∧ c ≠ '.'

theorem NumStop.toDigitStop {rest : List Char} (h : NumStop rest) : DigitStop rest := by
  match rest with
  | [] => trivial
  | c :: r => exact h.1

theorem natDigitsAux_eq (fuel : ℕ) : ∀ n : ℕ, n ≤ fuel → natDigitsAux fuel n = Nat.digits 10 n := by
  induction fuel with
  | zero => intro n hn; interval_cases n; simp [natDigitsAux]
  | succ fuel ih =>
    intro n hn
    match n with
    | 0 => simp [natDigitsAux]
    | n + 1 =>
      rw [natDigitsAux, Nat.digits_def' (by norm_num) (Nat.succ_pos n), ih]
      have := Nat.div_lt_self (Nat.succ_pos n) (show 1 < 10 by norm_num)
      omega

theorem natDigits_eq (n : ℕ) : natDigits n = Nat.digits 10 n := natDigitsAux_eq n n le_rfl

theorem charToDigit_digitToChar : ∀ d < 10, charToDigit (digitToChar d) = some d := by decide

theorem charToDigit_dot : charToDigit '.' = none := by decide

theorem padList_lt (m k : ℕ) : ∀ d ∈ padList m k, d < 10 := by
  intro d hd
  rcases List.mem_append.1 hd with h | h
  · rw [List.eq_of_mem_replicate h]; norm_num
  · exact Nat.digits_lt_base (by norm_num) (by rw [← natDigits_eq]; exact List.mem_reverse.1 h)

theorem padList_length (m k : ℕ) : k + 1 ≤ (padList m k).length := by
  simp only [padList, List.length_append, List.length_replicate, List.length_reverse]
  omega

theorem ofDigits_replicate_zero (b j : ℕ) : Nat.ofDigits b (List.replicate j 0) = 0 := by
  induction j with
  | zero => simp
  | succ j ih => simp [List.replicate_succ, Nat.ofDigits_cons, ih]

theorem digitsVal_padList (m k : ℕ) : digitsVal (padList m k) = m := by
  simp only [digitsVal, padList, List.reverse_append, List.reverse_reverse,
    List.reverse_replicate, natDigits_eq, Nat.ofDigits_append, Nat.ofDigits_digits,
    ofDigits_replicate_zero, Nat.mul_zero, Nat.add_zero]

theorem spanDigits_stop (rest : List Char) (h : DigitStop rest) : spanDigits rest = ([], rest) := by
  match rest with
  | [] => rfl
  | c :: r =>
    have h' : charToDigit c = none := h
    simp only [spanDigits, h']

theorem spanDigits_map (ds : List ℕ) (hds : ∀ d ∈ ds, d < 10) (rest : List Char)
    (hrest : DigitStop rest) : spanDigits (ds.map digitToChar ++ rest) = (ds, rest) := by
  induction ds with
  | nil => exact spanDigits_stop rest hrest
  | cons d ds ih =>
    have hd : d < 10 := hds d (by simp)
    simp only [List.map_cons, List.cons_append, spanDigits, List.append_eq,
      charToDigit_digitToChar d hd, ih (fun x hx => hds x (by simp [hx]))]

theorem cast_toNat_num_mul_pow (q : ℚ) (k : ℕ) (h0 : 0 ≤ q) (hd : q.den ∣ 10 ^ k) :
    (((q * (10 : ℚ) ^ k).num.toNat : ℕ) : ℚ) = q * (10 : ℚ) ^ k := by
  obtain ⟨c, hc⟩ := hd
  have hden0 : ((q.den : ℚ)) ≠ 0 := Nat.cast_ne_zero.2 (Rat.den_ne_zero q)
  have h1 : q * (10 : ℚ) ^ k = ((q.num * (c : ℤ) : ℤ) : ℚ) := by
    have h2 : ((10 : ℚ)) ^ k = ((10 ^ k : ℕ) : ℚ) := by push_cast; ring
    calc q * (10 : ℚ) ^ k = q * ((q.den * c : ℕ) : ℚ) := by rw [h2, hc]
      _ = q * (q.den : ℚ) * (c : ℚ) := by push_cast; ring
      _ = (q.num : ℚ) * (c : ℚ) := by rw [Rat.mul_den_eq_num]
      _ = ((q.num * (c : ℤ) : ℤ) : ℚ) := by push_cast; ring
  have hnum : (q * (10 : ℚ) ^ k).num = q.num * (c : ℤ) := by rw [h1, Rat.intCast_num]
  have hge : 0 ≤ q.num * (c : ℤ) := mul_nonneg (Rat.num_nonneg.2 h0) (Int.ofNat_nonneg c)
  rw [hnum, h1]
  exact_mod_cast congrArg (fun z : ℤ => ((z : ℚ))) (Int.toNat_of_nonneg hge)

theorem padList_ne_nil (m k : ℕ) : padList m k ≠ [] := by
  intro h
  have := padList_length m k
  rw [h] at this
  simp at this

theorem parseNumNN_qCharsNN (q : ℚ) (h0 : 0 ≤ q) (hd : DecimalDen q) (rest : List Char)
    (hstop : NumStop rest) : parseNumNN (qCharsNN q ++ rest) = some (q, rest) := by
  have hm := cast_toNat_num_mul_pow q (decExp q.den) h0 hd
  set k := decExp q.den with hk
  set m := (q * (10 : ℚ) ^ k).num.toNat with hmdef
  have hlen := padList_length m k
  have hval := digitsVal_padList m k
  have hlt := padList_lt m k
  by_cases hk0 : k = 0
  · -- integer case: no decimal point
    have hq : (m : ℚ) = q := by
      have := hm
      rw [hk0, pow_zero, mul_one] at this
      exact this
    obtain ⟨a, as, hcons⟩ : ∃ a as, padList m k = a :: as := by
      cases h : padList m k with
      | nil => exact absurd h (padList_ne_nil m k)
      | cons a as => exact ⟨a, as, rfl⟩
    have hspan : spanDigits (qCharsNN q ++ rest) = (a :: as, rest) := by
      rw [qCharsNN, ← hk, if_pos hk0, padDigitsN, ← hcons]
      exact spanDigits_map _ hlt rest hstop.toDigitStop
    rw [parseNumNN, hspan]
    have hv : digitsVal (a :: as) = m := by rw [← hcons, hval]
    match rest, hstop with
    | [], _ => simp [hv, hq]
    | c :: r, hstop =>
      have hc : c ≠ '.' := hstop.2
      simp [hc, hv, hq]
  · -- fractional case: digits, point, digits
    set L := (padList m k).length with hL
    have hkL : k + 1 ≤ L := hlen
    set A := (padList m k).take (L - k) with hA
    set B := (padList m k).drop (L - k) with hB
    have hAB : A ++ B = padList m k := List.take_append_drop _ _
    have hBlen : B.length = k := by
      rw [hB, List.length_drop]
      omega
    have hAlen : A.length = L - k := by
      rw [hA, List.length_take]
      omega
    have hprint : qCharsNN q ++ rest =
        A.map digitToChar ++ ('.' :: (B.map digitToChar ++ rest)) := by
      rw [qCharsNN, ← hk, if_neg hk0, padDigitsN]
      simp only [List.length_map, ← hL, ← List.map_take, ← List.map_drop, ← hA, ← hB]
      simp
    have hAlt : ∀ d ∈ A, d < 10 := fun d hdm => hlt d (List.mem_of_mem_take hdm)
    have hBlt : ∀ d ∈ B, d < 10 := fun d hdm => hlt d (List.mem_of_mem_drop hdm)
    obtain ⟨a, as, hcons⟩ : ∃ a as, A = a :: as := by
      cases h : A with
      | nil =>
        exfalso
        have : A.length = 0 := by rw [h]; rfl
        omega
      | cons a as => exact ⟨a, as, rfl⟩
    obtain ⟨b, bs, hconsB⟩ : ∃ b bs, B = b :: bs := by
      cases h : B with
      | nil =>
        exfalso
        have : B.length = 0 := by rw [h]; rfl
        omega
      | cons b bs => exact ⟨b, bs, rfl⟩
    have hspan1 : spanDigits (qCharsNN q ++ rest) = (a :: as, '.' :: (B.map digitToChar ++ rest)) := by
      rw [hprint, ← hcons]
      exact spanDigits_map _ hAlt _ charToDigit_dot
    have hspan2 : spanDigits (B.map digitToChar ++ rest) = (b :: bs, rest) := by
      rw [← hconsB]
      exact spanDigits_map _ hBlt rest hstop.toDigitStop
    rw [parseNumNN, hspan1]
    simp only [hspan2]
    have hv : digitsVal (a :: as ++ (b :: bs)) = m := by
      rw [← hcons, ← hconsB, hAB, hval]
    have hlenb : (b :: bs).length = k := by rw [← hconsB, hBlen]
    have hq : (digitsVal (a :: as ++ b :: bs) : ℚ) / (10 : ℚ) ^ (b :: bs).length = q := by
      rw [hv, hlenb, div_eq_iff (by positivity : ((10 : ℚ)) ^ k ≠ 0), hm]
    simp only [List.cons_append, List.length_cons] at hq
    simpa using hq
theorem padBranch_head (m k : ℕ) : ∃ c cs,
    (if k = 0 then padDigitsN m k
     else (padDigitsN m k).take ((padDigitsN m k).length - k) ++
       '.' :: (padDigitsN m k).drop ((padDigitsN m k).length - k)) = c :: cs ∧
    charToDigit c ≠ none := by
  have hlt := padList_lt m k
  obtain ⟨a, as, hcons⟩ : ∃ a as, padList m k = a :: as := by
    cases h : padList m k with
    | nil => exact absurd h (padList_ne_nil m k)
    | cons a as => exact ⟨a, as, rfl⟩
  have ha : charToDigit (digitToChar a) ≠ none := by
    rw [charToDigit_digitToChar a (hlt a (by rw [hcons]; simp))]
    simp
  have hpd : padDigitsN m k = digitToChar a :: as.map digitToChar := by
    rw [padDigitsN, hcons, List.map_cons]
  by_cases hk0 : k = 0
  · exact ⟨digitToChar a, as.map digitToChar, by rw [if_pos hk0, hpd], ha⟩
  · have hlen' : k + 1 ≤ (padDigitsN m k).length := by
      rw [padDigitsN, List.length_map]
      exact padList_length m k
    obtain ⟨j, hj⟩ : ∃ j, (padDigitsN m k).length - k = j + 1 :=
      ⟨(padDigitsN m k).length - k - 1, by omega⟩
    refine ⟨digitToChar a, (as.map digitToChar).take j ++
      '.' :: (digitToChar a :: as.map digitToChar).drop (j + 1), ?_, ha⟩
    rw [if_neg hk0, hj, hpd, List.take_succ_cons, List.cons_append]

theorem qCharsNN_head (q : ℚ) : ∃ c cs, qCharsNN q = c :: cs ∧ charToDigit c ≠ none := by
  unfold qCharsNN
  exact padBranch_head _ _

theorem charToDigit_minus : charToDigit '-' = none := by decide

theorem parseNum_qChars (q : ℚ) (hd : DecimalDen q) (rest : List Char)
    (hstop : NumStop rest) : parseNum (qChars q ++ rest) = some (q, rest) := by
  by_cases hq : q < 0
  · have hd' : DecimalDen (-q) := by
      show (-q).den ∣ 10 ^ decExp (-q).den
      rw [Rat.neg_den]
      exact hd
    rw [qChars, if_pos hq, List.cons_append, parseNum, if_pos rfl,
      parseNumNN_qCharsNN (-q) (neg_nonneg.2 hq.le) hd' rest hstop]
    simp
  · obtain ⟨c, cs, hcons, hdig⟩ := qCharsNN_head q
    have hc : ¬(c = '-') := fun h => hdig (h ▸ charToDigit_minus)
    rw [qChars, if_neg hq, hcons, List.cons_append, parseNum, if_neg hc, ← List.cons_append,
      ← hcons, parseNumNN_qCharsNN q (not_lt.1 hq) hd rest hstop]

/-- Left brace character (written via its code point). -/
def lbraceC : Char := Char.ofNat 123

/-- Right brace character (written via its code point). -/
def rbraceC : Char := Char.ofNat 125

/-- Lower-case hexadecimal digit character. -/
def hexDigitChar (d : ℕ) : Char := if d < 10 then digitToChar d else Char.ofNat (97 + d - 10)

/-- Hexadecimal digit value of a character, `none` for non-hex-digits. -/
def charHexVal (c : Char) : Option ℕ :=
  if 48 ≤ c.toNat ∧ c.toNat ≤ 57 then some (c.toNat - 48)
  else if 97 ≤ c.toNat ∧ c.toNat ≤ 102 then some (c.toNat - 87)
  else if 65 ≤ c.toNat ∧ c.toNat ≤ 70 then some (c.toNat - 55)
  else none

/-- Escape one character of a JSON string the way `JSON.stringify` does:
quote and backslash get a backslash escape, control characters become
`\u00XX` (stringify's short forms `\n`, `\t`, ... denote the same
characters), and everything else is emitted literally. -/
def escapeChar (c : Char) : List Char :=
  if c = '"' then ['\\', '"']
  else if c = '\\' then ['\\', '\\']
  else if c.toNat < 32 then
    ['\\', 'u', '0', '0', hexDigitChar (c.toNat / 16), hexDigitChar (c.toNat % 16)]
  else [c]

/-- Escape a whole string body. -/
def escChars : List Char → List Char
  | [] => []
  | c :: cs => escapeChar c ++ escChars cs

/-- Parse a JSON string body up to (and consuming) the closing quote,
handling the standard JSON escapes.  Structural recursion on a fuel
parameter keeps the definition kernel-reducible; any fuel larger than the
length of the decoded string suffices. -/
def parseStrBody : ℕ → List Char → Option (List Char × List Char)
  | 0, _ => none
  | _ + 1, [] => none
  | fuel + 1, c :: rest =>
    if c = '"' then some ([], rest)
    else if c = '\\' then
      match rest with
      | [] => none
      | e :: rest2 =>
        if e = '"' ∨ e = '\\' ∨ e = '/' then
          (parseStrBody fuel rest2).map (fun p => (e :: p.1, p.2))
        else if e = 'n' then (parseStrBody fuel rest2).map (fun p => ('\n' :: p.1, p.2))
        else if e = 't' then (parseStrBody fuel rest2).map (fun p => ('\t' :: p.1, p.2))
        else if e = 'r' then (parseStrBody fuel rest2).map (fun p => ('\r' :: p.1, p.2))
        else if e = 'b' then (parseStrBody fuel rest2).map (fun p => (Char.ofNat 8 :: p.1, p.2))
        else if e = 'f' then (parseStrBody fuel rest2).map (fun p => (Char.ofNat 12 :: p.1, p.2))
        else if e = 'u' then
          match rest2 with
          | h1 :: h2 :: h3 :: h4 :: rest3 =>
            match charHexVal h1, charHexVal h2, charHexVal h3, charHexVal h4 with
            | some v1, some v2, some v3, some v4 =>
              (parseStrBody fuel rest3).map
                (fun p => (Char.ofNat (((v1 * 16 + v2) * 16 + v3) * 16 + v4) :: p.1, p.2))
            | _, _, _, _ => none
          | _ => none
        else none
    else (parseStrBody fuel rest).map (fun p => (c :: p.1, p.2))

theorem charHexVal_hexDigitChar : ∀ d < 16, charHexVal (hexDigitChar d) = some d := by decide

theorem parseStrBody_escChars (s : List Char) : ∀ fuel, s.length < fuel → ∀ rest : List Char,
    parseStrBody fuel (escChars s ++ ('"' :: rest)) = some (s, rest) := by
  induction s with
  | nil =>
    intro fuel hf rest
    match fuel, hf with
    | f + 1, _ => rfl
  | cons c cs ih =>
    intro fuel hf rest
    match fuel, hf with
    | f + 1, hx =>
      have hcs : cs.length < f := by simp at hx; omega
      by_cases h1 : c = '"'
      · subst h1
        simp +decide only [escChars, escapeChar, List.cons_append, List.nil_append,
          List.append_assoc, parseStrBody]
        simp [ih f hcs rest]
      · by_cases h2 : c = '\\'
        · subst h2
          simp +decide only [escChars, escapeChar, List.cons_append, List.nil_append,
            List.append_assoc, parseStrBody]
          simp [ih f hcs rest]
        · by_cases h3 : c.toNat < 32
          · have hv1 : c.toNat / 16 < 16 := by omega
            have hv2 : c.toNat % 16 < 16 := Nat.mod_lt _ (by norm_num)
            have hh1 := charHexVal_hexDigitChar _ hv1
            have hh2 := charHexVal_hexDigitChar _ hv2
            have hchar : c.toNat / 16 * 16 + c.toNat % 16 = c.toNat := by omega
            have h00 : charHexVal '0' = some 0 := by decide
            simp only [escChars, escapeChar, if_neg h1, if_neg h2, if_pos h3, List.cons_append,
              List.append_assoc, List.nil_append]
            simp +decide only [parseStrBody]
            simp [hh1, hh2, h00, ih f hcs rest, hchar, Char.ofNat_toNat]
          · have hec : escapeChar c = [c] := by rw [escapeChar, if_neg h1, if_neg h2, if_neg h3]
            simp only [escChars, hec, List.cons_append, List.nil_append, parseStrBody,
              if_neg h1, if_neg h2, ih f hcs rest]
            rfl

mutual
/-- JSON text of a value, as the compact form of `JSON.stringify`
produces it (no whitespace, members in order). -/
def serialize : JVal → List Char
  | .null => 'n' :: ['u', 'l', 'l']
  | .bool true => 't' :: ['r', 'u', 'e']
  | .bool false => 'f' :: ['a', 'l', 's', 'e']
  | .num q => qChars q
  | .str s => '"' :: (escChars s.data ++ ['"'])
  | .arr [] => ['[', ']']
  | .arr (x :: xs) => '[' :: ((serialize x ++ serElems xs) ++ [']'])
  | .obj [] => [lbraceC, rbraceC]
  | .obj (m :: ms) => lbraceC :: ((serMember m ++ serMembers ms) ++ [rbraceC])

/-- Array elements after the first, each preceded by a comma. -/
def serElems : List JVal → List Char
  | [] => []
  | x :: xs => ',' :: (serialize x ++ serElems xs)

/-- One object member: quoted key, colon, value. -/
def serMember : String × JVal → List Char
  | (k, v) => '"' :: (escChars k.data ++ ('"' :: ':' :: serialize v))

/-- Object members after the first, each preceded by a comma. -/
def serMembers : List (String × JVal) → List Char
  | [] => []
  | m :: ms => ',' :: (serMember m ++ serMembers ms)
end

mutual
/-- Every number in the value has a finite decimal expansion (true of
every value a JS program can build, since JS numbers are binary floats). -/
def decimalJ : JVal → Bool
  | .num q => decide (DecimalDen q)
  | .arr xs => decimalL xs
  | .obj ms => decimalM ms
  | _ => true

/-- All-numbers-decimal for a list of values. -/
def decimalL : List JVal → Bool
  | [] => true
  | x :: xs => decimalJ x && decimalL xs

/-- All-numbers-decimal for object members. -/
def decimalM : List (String × JVal) → Bool
  | [] => true
  | (_, v) :: ms => decimalJ v && decimalM ms
end

mutual
/-- Fuel sufficient for `parseVal` to parse this value (one unit per
grammar step; string bodies draw their fuel from the input length). -/
def fuelV : JVal → ℕ
  | .null => 1
  | .bool _ => 1
  | .num _ => 1
  | .str _ => 1
  | .arr xs => 1 + fuelE xs
  | .obj ms => 1 + fuelM ms

/-- Fuel sufficient for `parseElems` on the tail of an element list. -/
def fuelE : List JVal → ℕ
  | [] => 1
  | x :: xs => 1 + max (fuelV x) (fuelE xs)

/-- Fuel sufficient for `parseMembers` on the tail of a member list. -/
def fuelM : List (String × JVal) → ℕ
  | [] => 1
  | (_, v) :: ms => 1 + max (fuelV v) (fuelM ms)
end

mutual
/-- Parse one JSON value off the front of the input (whitespace-free
JSON, which is all `JSON.stringify` emits).  Structural on fuel; string
bodies use the remaining input length as fuel, which always suffices. -/
def parseVal : ℕ → List Char → Option (JVal × List Char)
  | 0, _ => none
  | fuel + 1, cs =>
    match cs with
    | [] => none
    | c :: rest =>
      if c = 'n' then
        match rest with
        | 'u' :: 'l' :: 'l' :: r => some (.null, r)
        | _ => none
      else if c = 't' then
        match rest with
        | 'r' :: 'u' :: 'e' :: r => some (.bool true, r)
        | _ => none
      else if c = 'f' then
        match rest with
        | 'a' :: 'l' :: 's' :: 'e' :: r => some (.bool false, r)
        | _ => none
      else if c = '"' then
        (parseStrBody rest.length rest).map (fun p => (.str (String.mk p.1), p.2))
      else if c = '[' then
        match rest with
        | [] => none
        | r0 :: r =>
          if r0 = ']' then some (.arr [], r)
          else (parseElems fuel (r0 :: r)).map (fun p => (.arr p.1, p.2))
      else if c = lbraceC then
        match rest with
        | [] => none
        | r0 :: r =>
          if r0 = rbraceC then some (.obj [], r)
          else (parseMembers fuel (r0 :: r)).map (fun p => (.obj p.1, p.2))
      else (parseNum (c :: rest)).map (fun p => (.num p.1, p.2))

/-- Parse the elements of a nonempty array, consuming the closing
bracket. -/
def parseElems : ℕ → List Char → Option (List JVal × List Char)
  | 0, _ => none
  | fuel + 1, cs =>
    match parseVal fuel cs with
    | none => none
    | some (v, r) =>
      match r with
      | ',' :: r2 =>
        match parseElems fuel r2 with
        | some (vs, r3) => some (v :: vs, r3)
        | none => none
      | ']' :: r2 => some ([v], r2)
      | _ => none

/-- Parse the members of a nonempty object, consuming the closing
brace. -/
def parseMembers : ℕ → List Char → Option (List (String × JVal) × List Char)
  | 0, _ => none
  | fuel + 1, cs =>
    match cs with
    | '"' :: cs2 =>
      match parseStrBody cs2.length cs2 with
      | none => none
      | some (kcs, r) =>
        match r with
        | ':' :: r2 =>
          match parseVal fuel r2 with
          | none => none
          | some (v, r3) =>
            match r3 with
            | ',' :: r4 =>
              match parseMembers fuel r4 with
              | some (ms, r5) => some ((String.mk kcs, v) :: ms, r5)
              | none => none
            | r0 :: r4 => if r0 = rbraceC then some ([(String.mk kcs, v)], r4) else none
            | [] => none
        | _ => none
    | _ => none
end

/-- Parse a whole JSON document: one value consuming the entire input. -/
def jsonParse (s : String) : Option JVal :=
  match parseVal (s.data.length + 1) s.data with
  | some (v, []) => some v
  | _ => none

/-- Serialize to a string (`JSON.stringify`). -/
def jsonStringify (v : JVal) : String := String.mk (serialize v)

/-- Positions where a serialized value may legally end inside a larger
document: end of input, or a comma / closing bracket / closing brace. -/
def SerStop (rest : List Char) : Prop :=
  match rest with
  | [] => True
  | c :: _ => c = ',' ∨ c = ']' ∨ c = rbraceC

theorem SerStop.toNumStop {rest : List Char} (h : SerStop rest) : NumStop rest := by
  match rest with
  | [] => trivial
  | c :: r =>
    rcases h with h | h | h <;> subst h <;> exact ⟨by decide, by decide⟩

theorem escChars_length_ge (s : List Char) : s.length ≤ (escChars s).length := by
  induction s with
  | nil => simp [escChars]
  | cons c cs ih =>
    have : 1 ≤ (escapeChar c).length := by
      rw [escapeChar]
      split
      · simp
      · split
        · simp
        · split <;> simp
    simp only [escChars, List.length_append, List.length_cons]
    omega

theorem ne_of_digit {c : Char} (h : charToDigit c ≠ none) {c' : Char}
    (h' : charToDigit c' = none) : c ≠ c' := fun e => h (e ▸ h')

theorem qChars_head (q : ℚ) :
    ∃ c cs, qChars q = c :: cs ∧ (c = '-' ∨ charToDigit c ≠ none) := by
  by_cases hq : q < 0
  · exact ⟨'-', qCharsNN (-q), by rw [qChars, if_pos hq], Or.inl rfl⟩
  · obtain ⟨c, cs, hcons, hdig⟩ := qCharsNN_head q
    exact ⟨c, cs, by rw [qChars, if_neg hq, hcons], Or.inr hdig⟩

theorem serialize_head (v : JVal) : ∃ c cs, serialize v = c :: cs ∧
    c ≠ ']' ∧ c ≠ rbraceC ∧ c ≠ ',' := by
  match v with
  | .null => exact ⟨'n', _, rfl, by decide, by decide, by decide⟩
  | .bool true => exact ⟨'t', _, rfl, by decide, by decide, by decide⟩
  | .bool false => exact ⟨'f', _, rfl, by decide, by decide, by decide⟩
  | .num q =>
    obtain ⟨c, cs, hcons, hc⟩ := qChars_head q
    refine ⟨c, cs, hcons, ?_, ?_, ?_⟩ <;>
      rcases hc with h | h
    · subst h; decide
    · exact ne_of_digit h (by decide)
    · subst h; decide
    · exact ne_of_digit h (by decide)
    · subst h; decide
    · exact ne_of_digit h (by decide)
  | .str s => exact ⟨'"', _, rfl, by decide, by decide, by decide⟩
  | .arr [] => exact ⟨'[', _, rfl, by decide, by decide, by decide⟩
  | .arr (x :: xs) => exact ⟨'[', _, rfl, by decide, by decide, by decide⟩
  | .obj [] => exact ⟨lbraceC, _, rfl, by decide, by decide, by decide⟩
  | .obj (m :: ms) => exact ⟨lbraceC, _, rfl, by decide, by decide, by decide⟩

theorem decimalL_mem {xs : List JVal} (h : decimalL xs = true) {y : JVal} (hy : y ∈ xs) :
    decimalJ y = true := by
  induction xs with
  | nil => cases hy
  | cons x xs ih =>
    rw [decimalL, Bool.and_eq_true] at h
    rcases List.mem_cons.1 hy with h1 | h1
    · exact h1 ▸ h.1
    · exact ih h.2 h1

theorem decimalM_mem {ms : List (String × JVal)} (h : decimalM ms = true)
    {p : String × JVal} (hp : p ∈ ms) : decimalJ p.2 = true := by
  induction ms with
  | nil => cases hp
  | cons m ms ih =>
    match m with
    | (k, v) =>
      rw [decimalM, Bool.and_eq_true] at h
      rcases List.mem_cons.1 hp with h1 | h1
      · exact h1 ▸ h.1
      · exact ih h.2 h1

/-- Statement of parse-after-serialize correctness for one value. -/
def PV (v : JVal) : Prop :=
  ∀ fuel, fuelV v ≤ fuel → ∀ rest, SerStop rest →
    parseVal fuel (serialize v ++ rest) = some (v, rest)

theorem parseElems_ser (xs : List JVal) : ∀ x : JVal, (∀ y ∈ x :: xs, PV y) →
    ∀ fuel, fuelE (x :: xs) ≤ fuel → ∀ rest, SerStop rest →
    parseElems fuel ((serialize x ++ serElems xs) ++ (']' :: rest)) = some (x :: xs, rest) := by
  induction xs with
  | nil =>
    intro x hPV fuel hfuel rest hrest
    have h1 : 1 ≤ fuelE [x] := by rw [fuelE]; omega
    obtain ⟨f, rfl⟩ : ∃ f, fuel = f + 1 := ⟨fuel - 1, by omega⟩
    have hfx : fuelV x ≤ f := by rw [fuelE] at hfuel; omega
    have hx := hPV x (by simp) f hfx (']' :: rest) (Or.inr (Or.inl rfl))
    rw [serElems, List.append_nil]
    simp only [parseElems, hx]
  | cons y ys ih =>
    intro x hPV fuel hfuel rest hrest
    have h1 : 1 ≤ fuelE (x :: y :: ys) := by rw [fuelE]; omega
    obtain ⟨f, rfl⟩ : ∃ f, fuel = f + 1 := ⟨fuel - 1, by omega⟩
    have hfx : fuelV x ≤ f := by rw [fuelE] at hfuel; omega
    have hfys : fuelE (y :: ys) ≤ f := by rw [fuelE] at hfuel; omega
    have hx := hPV x (by simp) f hfx
      (',' :: ((serialize y ++ serElems ys) ++ (']' :: rest))) (Or.inl rfl)
    have hys := ih y (fun z hz => hPV z (List.mem_cons_of_mem x hz)) f hfys rest hrest
    have hshape : (serialize x ++ serElems (y :: ys)) ++ (']' :: rest) =
        serialize x ++ (',' :: ((serialize y ++ serElems ys) ++ (']' :: rest))) := by
      rw [serElems]
      simp
    rw [hshape]
    simp only [parseElems, hx, hys]

theorem parseMembers_ser (ms : List (String × JVal)) : ∀ (k : String) (v : JVal),
    (∀ p ∈ (k, v) :: ms, PV p.2) →
    ∀ fuel, fuelM ((k, v) :: ms) ≤ fuel → ∀ rest, SerStop rest →
    parseMembers fuel ((serMember (k, v) ++ serMembers ms) ++ (rbraceC :: rest)) =
      some ((k, v) :: ms, rest) := by
  induction ms with
  | nil =>
    intro k v hPV fuel hfuel rest hrest
    have h1 : 1 ≤ fuelM [(k, v)] := by rw [fuelM]; omega
    obtain ⟨f, rfl⟩ : ∃ f, fuel = f + 1 := ⟨fuel - 1, by omega⟩
    have hfv : fuelV v ≤ f := by rw [fuelM] at hfuel; omega
    have hv : parseVal f (serialize v ++ (rbraceC :: rest)) = some (v, rbraceC :: rest) :=
      hPV (k, v) (by simp) f hfv (rbraceC :: rest) (Or.inr (Or.inr rfl))
    have hshape : (serMember (k, v) ++ serMembers []) ++ (rbraceC :: rest) =
        '"' :: (escChars k.data ++ ('"' :: (':' :: (serialize v ++ (rbraceC :: rest))))) := by
      rw [serMember, serMembers]
      simp
    rw [hshape]
    have hklen : k.data.length <
        (escChars k.data ++ ('"' :: (':' :: (serialize v ++ (rbraceC :: rest))))).length := by
      have := escChars_length_ge k.data
      simp only [List.length_append, List.length_cons]
      omega
    simp only [parseMembers, parseStrBody_escChars k.data _ hklen, hv]
    simp +decide
  | cons m ms ih =>
    intro k v hPV fuel hfuel rest hrest
    obtain ⟨k2, v2⟩ := m
    have h1 : 1 ≤ fuelM ((k, v) :: (k2, v2) :: ms) := by rw [fuelM]; omega
    obtain ⟨f, rfl⟩ : ∃ f, fuel = f + 1 := ⟨fuel - 1, by omega⟩
    have hfv : fuelV v ≤ f := by rw [fuelM] at hfuel; omega
    have hfms : fuelM ((k2, v2) :: ms) ≤ f := by rw [fuelM] at hfuel; omega
    have hv : parseVal f (serialize v ++
          (',' :: ((serMember (k2, v2) ++ serMembers ms) ++ (rbraceC :: rest)))) =
        some (v, ',' :: ((serMember (k2, v2) ++ serMembers ms) ++ (rbraceC :: rest))) :=
      hPV (k, v) (by simp) f hfv _ (Or.inl rfl)
    have hms := ih k2 v2 (fun p hp => hPV p (List.mem_cons_of_mem _ hp)) f hfms rest hrest
    have hshape : (serMember (k, v) ++ serMembers ((k2, v2) :: ms)) ++ (rbraceC :: rest) =
        '"' :: (escChars k.data ++ ('"' :: (':' :: (serialize v ++
          (',' :: ((serMember (k2, v2) ++ serMembers ms) ++ (rbraceC :: rest))))))) := by
      rw [serMember, serMembers]
      simp
    rw [hshape]
    have hklen : k.data.length <
        (escChars k.data ++ ('"' :: (':' :: (serialize v ++
          (',' :: ((serMember (k2, v2) ++ serMembers ms) ++ (rbraceC :: rest))))))).length := by
      have := escChars_length_ge k.data
      simp only [List.length_append, List.length_cons]
      omega
    simp only [parseMembers, parseStrBody_escChars k.data _ hklen, hv, hms]

theorem parseVal_ser_main : ∀ N : ℕ, ∀ v : JVal, sizeOf v ≤ N → decimalJ v = true → PV v := by
  intro N
  induction N with
  | zero =>
    intro v hsz
    exact absurd hsz (by cases v <;> simp)
  | succ N ih =>
    intro v hsz hdec fuel hfuel rest hrest
    match v with
    | .null =>
      obtain ⟨f, rfl⟩ : ∃ f, fuel = f + 1 := ⟨fuel - 1, by rw [fuelV] at hfuel; omega⟩
      rfl
    | .bool true =>
      obtain ⟨f, rfl⟩ : ∃ f, fuel = f + 1 := ⟨fuel - 1, by rw [fuelV] at hfuel; omega⟩
      rfl
    | .bool false =>
      obtain ⟨f, rfl⟩ : ∃ f, fuel = f + 1 := ⟨fuel - 1, by rw [fuelV] at hfuel; omega⟩
      rfl
    | .num q =>
      obtain ⟨f, rfl⟩ : ∃ f, fuel = f + 1 := ⟨fuel - 1, by rw [fuelV] at hfuel; omega⟩
      have hq : DecimalDen q := of_decide_eq_true (by rw [decimalJ] at hdec; exact hdec)
      obtain ⟨c, cs, hcons, hc⟩ := qChars_head q
      have hnum := parseNum_qChars q hq rest hrest.toNumStop
      have hn : ¬(c = 'n') := by
        rcases hc with h | h
        · subst h; decide
        · exact ne_of_digit h (by decide)
      have ht : ¬(c = 't') := by
        rcases hc with h | h
        · subst h; decide
        · exact ne_of_digit h (by decide)
      have hf : ¬(c = 'f') := by
        rcases hc with h | h
        · subst h; decide
        · exact ne_of_digit h (by decide)
      have hquo : ¬(c = '"') := by
        rcases hc with h | h
        · subst h; decide
        · exact ne_of_digit h (by decide)
      have hbra : ¬(c = '[') := by
        rcases hc with h | h
        · subst h; decide
        · exact ne_of_digit h (by decide)
      have hlb : ¬(c = lbraceC) := by
        rcases hc with h | h
        · subst h; decide
        · exact ne_of_digit h (by decide)
      rw [show serialize (.num q) = qChars q from rfl, hcons, List.cons_append]
      simp only [parseVal, if_neg hn, if_neg ht, if_neg hf, if_neg hquo, if_neg hbra, if_neg hlb]
      rw [← List.cons_append, ← hcons, hnum]
      rfl
    | .str s =>
      obtain ⟨f, rfl⟩ : ∃ f, fuel = f + 1 := ⟨fuel - 1, by rw [fuelV] at hfuel; omega⟩
      have hshape : serialize (.str s) ++ rest =
          '"' :: (escChars s.data ++ ('"' :: rest)) := by
        rw [show serialize (.str s) = '"' :: (escChars s.data ++ ['"']) from rfl]
        simp
      rw [hshape]
      have hlen : s.data.length < (escChars s.data ++ ('"' :: rest)).length := by
        have := escChars_length_ge s.data
        simp only [List.length_append, List.length_cons]
        omega
      simp only [parseVal, parseStrBody_escChars s.data _ hlen]
      simp +decide
    | .arr [] =>
      obtain ⟨f, rfl⟩ : ∃ f, fuel = f + 1 := ⟨fuel - 1, by rw [fuelV] at hfuel; omega⟩
      rfl
    | .arr (x :: xs) =>
      obtain ⟨f, rfl⟩ : ∃ f, fuel = f + 1 := ⟨fuel - 1, by rw [fuelV] at hfuel; omega⟩
      have hfE : fuelE (x :: xs) ≤ f := by rw [fuelV] at hfuel; omega
      have hPVs : ∀ y ∈ x :: xs, PV y := by
        intro y hy
        have hsy : sizeOf y ≤ N := by
          have h1 := List.sizeOf_lt_of_mem hy
          have h2 : sizeOf (JVal.arr (x :: xs)) = 1 + sizeOf (x :: xs) := by simp
          omega
        exact ih y hsy (decimalL_mem (by rw [decimalJ] at hdec; exact hdec) hy)
      have helems := parseElems_ser xs x hPVs f hfE rest hrest
      obtain ⟨c0, cs0, hcons0, hne1, _, _⟩ := serialize_head x
      have hshape : serialize (.arr (x :: xs)) ++ rest =
          '[' :: (c0 :: (cs0 ++ serElems xs ++ (']' :: rest))) := by
        rw [show serialize (.arr (x :: xs)) =
          '[' :: ((serialize x ++ serElems xs) ++ [']']) from rfl, hcons0]
        simp
      rw [hshape]
      simp only [parseVal, if_true]
      rw [if_neg hne1]
      have hback : c0 :: (cs0 ++ serElems xs ++ (']' :: rest)) =
          (serialize x ++ serElems xs) ++ (']' :: rest) := by
        rw [hcons0]
        simp
      rw [hback, helems]
      rfl
    | .obj [] =>
      obtain ⟨f, rfl⟩ : ∃ f, fuel = f + 1 := ⟨fuel - 1, by rw [fuelV] at hfuel; omega⟩
      have : serialize (.obj []) ++ rest = lbraceC :: (rbraceC :: rest) := rfl
      rw [this]
      simp +decide only [parseVal, if_true, if_false]
    | .obj ((k, v) :: ms) =>
      obtain ⟨f, rfl⟩ : ∃ f, fuel = f + 1 := ⟨fuel - 1, by rw [fuelV] at hfuel; omega⟩
      have hfM : fuelM ((k, v) :: ms) ≤ f := by rw [fuelV] at hfuel; omega
      have hPVs : ∀ p ∈ (k, v) :: ms, PV p.2 := by
        intro p hp
        have hsp : sizeOf p.2 ≤ N := by
          have h1 := List.sizeOf_lt_of_mem hp
          have h2 : sizeOf (JVal.obj ((k, v) :: ms)) = 1 + sizeOf ((k, v) :: ms) := by simp
          have h3 : sizeOf p.2 < sizeOf p := by
            obtain ⟨a, b⟩ := p
            simp
          omega
        exact ih p.2 hsp (decimalM_mem (by rw [decimalJ] at hdec; exact hdec) hp)
      have hmem := parseMembers_ser ms k v hPVs f hfM rest hrest
      have hshape : serialize (.obj ((k, v) :: ms)) ++ rest =
          lbraceC :: ('"' :: ((escChars k.data ++ ('"' :: ':' :: serialize v)) ++
            serMembers ms ++ (rbraceC :: rest))) := by
        rw [show serialize (.obj ((k, v) :: ms)) =
          lbraceC :: ((serMember (k, v) ++ serMembers ms) ++ [rbraceC]) from rfl,
          show serMember (k, v) = '"' :: (escChars k.data ++ ('"' :: ':' :: serialize v)) from rfl]
        simp
      rw [hshape]
      simp +decide only [parseVal, if_true, if_false]
      have hback : '"' :: ((escChars k.data ++ ('"' :: ':' :: serialize v)) ++
            serMembers ms ++ (rbraceC :: rest)) =
          (serMember (k, v) ++ serMembers ms) ++ (rbraceC :: rest) := by
        rw [show serMember (k, v) = '"' :: (escChars k.data ++ ('"' :: ':' :: serialize v)) from rfl]
        simp
      rw [hback, hmem]
      rfl

theorem fuelE_le (xs : List JVal) (h : ∀ y ∈ xs, fuelV y ≤ (serialize y).length + 1) :
    fuelE xs ≤ (serElems xs).length + 1 := by
  induction xs with
  | nil => rw [fuelE, serElems]; simp
  | cons x xs ih =>
    have hx := h x (by simp)
    have hxs := ih (fun y hy => h y (List.mem_cons_of_mem x hy))
    rw [fuelE, serElems]
    simp only [List.length_cons, List.length_append]
    omega

theorem fuelM_le (ms : List (String × JVal))
    (h : ∀ p ∈ ms, fuelV p.2 ≤ (serialize p.2).length + 1) :
    fuelM ms ≤ (serMembers ms).length + 1 := by
  induction ms with
  | nil => rw [fuelM, serMembers]; simp
  | cons m ms ih =>
    obtain ⟨k, v⟩ := m
    have hv : fuelV v ≤ (serialize v).length + 1 := h (k, v) (by simp)
    have hms := ih (fun p hp => h p (List.mem_cons_of_mem _ hp))
    have hmem : (serMember (k, v)).length =
        (escChars k.data).length + (serialize v).length + 3 := by
      rw [serMember]
      simp only [List.length_cons, List.length_append]
      omega
    rw [fuelM, serMembers]
    simp only [List.length_cons, List.length_append]
    omega

theorem fuelV_le : ∀ N : ℕ, ∀ v : JVal, sizeOf v ≤ N →
    fuelV v ≤ (serialize v).length + 1 := by
  intro N
  induction N with
  | zero =>
    intro v h
    exact absurd h (by cases v <;> simp)
  | succ N ih =>
    intro v hsz
    match v with
    | .null => rw [fuelV]; omega
    | .bool b => rw [fuelV]; omega
    | .num q => rw [fuelV]; omega
    | .str s => rw [fuelV]; omega
    | .arr [] => simp [fuelV, fuelE, serialize]
    | .arr (x :: xs) =>
      have hE := fuelE_le (x :: xs) (fun y hy => by
        have h1 := List.sizeOf_lt_of_mem hy
        have h2 : sizeOf (JVal.arr (x :: xs)) = 1 + sizeOf (x :: xs) := by simp
        exact ih y (by omega))
      have hser : (serialize (JVal.arr (x :: xs))).length =
          (serialize x).length + (serElems xs).length + 2 := by
        rw [show serialize (.arr (x :: xs)) =
          '[' :: ((serialize x ++ serElems xs) ++ [']']) from rfl]
        simp only [List.length_cons, List.length_append, List.length_singleton, List.length_nil]
        try omega
      have hE' : (serElems (x :: xs)).length =
          1 + (serialize x).length + (serElems xs).length := by
        rw [serElems]
        simp only [List.length_cons, List.length_append]
        omega
      rw [fuelV, hser]
      rw [hE'] at hE
      omega
    | .obj [] => simp [fuelV, fuelM, serialize]
    | .obj (m :: ms) =>
      have hM := fuelM_le (m :: ms) (fun p hp => by
        have h1 := List.sizeOf_lt_of_mem hp
        have h2 : sizeOf (JVal.obj (m :: ms)) = 1 + sizeOf (m :: ms) := by simp
        have h3 : sizeOf p.2 < sizeOf p := by
          obtain ⟨a, b⟩ := p
          simp
        exact ih p.2 (by omega))
      have hser : (serialize (JVal.obj (m :: ms))).length =
          (serMember m).length + (serMembers ms).length + 2 := by
        rw [show serialize (.obj (m :: ms)) =
          lbraceC :: ((serMember m ++ serMembers ms) ++ [rbraceC]) from rfl]
        simp only [List.length_cons, List.length_append, List.length_singleton, List.length_nil]
        try omega
      have hM' : (serMembers (m :: ms)).length =
          1 + (serMember m).length + (serMembers ms).length := by
        rw [serMembers]
        simp only [List.length_cons, List.length_append]
        omega
      rw [fuelV, hser]
      rw [hM'] at hM
      omega

/-- Round trip: parsing the serialized text of any value whose numbers
have finite decimal expansions (true of every JS value) returns the value
itself.  This is what makes `cache.get` after `cache.set` return a value
deep-equal to the one stored. -/
theorem jsonParse_jsonStringify (v : JVal) (hdec : decimalJ v = true) :
    jsonParse (jsonStringify v) = some v := by
  have hfuel : fuelV v ≤ (serialize v).length + 1 := fuelV_le (sizeOf v) v le_rfl
  have h := parseVal_ser_main (sizeOf v) v le_rfl hdec ((serialize v).length + 1) hfuel []
    trivial
  rw [List.append_nil] at h
  unfold jsonParse jsonStringify
  rw [show (String.mk (serialize v)).data = serialize v from rfl, h]

/-- The browser `localStorage`: a map from string keys to string values,
modeled as an association list.  The newest binding for a key is kept
first; enumeration order is not observed by any modeled operation. -/
abbrev Store := List (String × String)

/-- `localStorage.getItem`: the stored string, or `none` when absent. -/
def getItem (st : Store) (key : String) : Option String :=
  (st.find? (fun kv => kv.1 == key)).map (fun kv => kv.2)

/-- `localStorage.setItem`: bind `key` to `val`, replacing any previous
binding. -/
def setItem (st : Store) (key val : String) : Store :=
  (key, val) :: st.filter (fun kv => !(kv.1 == key))

/-- `localStorage.removeItem`. -/
def removeItem (st : Store) (key : String) : Store :=
  st.filter (fun kv => !(kv.1 == key))

/-- Whether string `s` starts with `pre` (`String.prototype.startsWith`). -/
def strStartsWith (s pre : String) : Bool := pre.data.isPrefixOf s.data

/-- `CACHE_PREFIX` of the bStats service cache. -/
def BSTATS_CACHE_PREF : String := "bstats-cache-"

/-- `CACHE_PREFIX` of the GitHub service cache. -/
def GITHUB_CACHE_PREF : String := "github-cache-"

/-- `cache.get` (both services, parameterized by their `CACHE_PREFIX`):
read `prefix + key`; a falsy item (absent or empty) is a miss; parse the
stored JSON, a parse failure (caught and logged in the source) is a miss. -/
def cacheGet (pre : String) (st : Store) (key : String) : Option JVal :=
  match getItem st (pre ++ key) with
  | none => none
  | some item => if item = "" then none else jsonParse item

/-- `cache.set` (both services): store `JSON.stringify(data)` under
`prefix + key`. -/
def cacheSet (pre : String) (st : Store) (key : String) (data : JVal) : Store :=
  setItem st (pre ++ key) (jsonStringify data)

/-- `cache.clear` (both services): remove every key that starts with the
service's `CACHE_PREFIX`. -/
def cacheClear (pre : String) (st : Store) : Store :=
  st.filter (fun kv => !(strStartsWith kv.1 pre))

theorem getItem_setItem_self (st : Store) (k v : String) :
    getItem (setItem st k v) k = some v := by
  simp [getItem, setItem]

theorem find?_filter_ne (st : Store) (k k2 : String) (h : k2 ≠ k) :
    (st.filter (fun kv => !(kv.1 == k2))).find? (fun kv => kv.1 == k) =
      st.find? (fun kv => kv.1 == k) := by
  induction st with
  | nil => rfl
  | cons a st ih =>
    by_cases ha : a.1 = k2
    · have h1 : (a.1 == k2) = true := by simp [ha]
      have h2 : (a.1 == k) = false := by rw [ha]; simp [h]
      simp [List.filter_cons, List.find?_cons, h1, h2, ih]
    · have h1 : (a.1 == k2) = false := by simp [ha]
      by_cases hk : a.1 = k
      · have h2 : (a.1 == k) = true := by simp [hk]
        simp [List.filter_cons, List.find?_cons, h1, h2]
      · have h2 : (a.1 == k) = false := by simp [hk]
        simp [List.filter_cons, List.find?_cons, h1, h2, ih]

theorem getItem_setItem_other (st : Store) (k k2 v : String) (h : k2 ≠ k) :
    getItem (setItem st k2 v) k = getItem st k := by
  have hne : (k2 == k) = false := by simp [h]
  simp [getItem, setItem, List.find?_cons, hne, find?_filter_ne st k k2 h]

theorem getItem_filter_none {p : String × String → Bool} (st : Store) (k : String)
    (h : ∀ v, p (k, v) = false) : getItem (st.filter p) k = none := by
  induction st with
  | nil => rfl
  | cons a st ih =>
    obtain ⟨a1, a2⟩ := a
    by_cases hk : a1 = k
    · have hp : p (a1, a2) = false := by rw [hk]; exact h a2
      simp only [List.filter_cons, hp, Bool.false_eq_true, if_false]
      exact ih
    · have h2 : (a1 == k) = false := by simp [hk]
      by_cases hp : p (a1, a2) = true
      · simp only [List.filter_cons, hp, if_true, getItem, List.find?_cons, h2]
        exact ih
      · simp only [List.filter_cons, Bool.eq_false_iff.2 hp, Bool.false_eq_true, if_false]
        exact ih

theorem getItem_filter_same {p : String × String → Bool} (st : Store) (k : String)
    (h : ∀ v, p (k, v) = true) : getItem (st.filter p) k = getItem st k := by
  induction st with
  | nil => rfl
  | cons a st ih =>
    obtain ⟨a1, a2⟩ := a
    by_cases hk : a1 = k
    · have hp : p (a1, a2) = true := by rw [hk]; exact h a2
      have h2 : (a1 == k) = true := by simp [hk]
      simp only [List.filter_cons, hp, if_true, getItem, List.find?_cons, h2]
    · have h2 : (a1 == k) = false := by simp [hk]
      by_cases hp : p (a1, a2) = true
      · simp only [List.filter_cons, hp, if_true, getItem, List.find?_cons, h2]
        exact ih
      · simp only [List.filter_cons, Bool.eq_false_iff.2 hp, Bool.false_eq_true, if_false]
        simp only [getItem, List.find?_cons, h2] at ih ⊢
        exact ih

theorem strStartsWith_append (pre k : String) : strStartsWith (pre ++ k) pre = true := by
  rw [strStartsWith, String.data_append]
  exact List.isPrefixOf_iff_prefix.2 (List.prefix_append pre.data k.data)

theorem jsonStringify_ne_empty (v : JVal) : jsonStringify v ≠ "" := by
  obtain ⟨c, cs, hcons, _⟩ := serialize_head v
  intro h
  have : (jsonStringify v).data = [] := by rw [h]
  rw [jsonStringify, hcons] at this
  exact List.noConfusion this

theorem string_append_right_inj {pre k2 k : String} (h : pre ++ k2 = pre ++ k) : k2 = k := by
  apply String.ext
  refine @List.append_cancel_left _ pre.data _ _ ?_
  rw [← String.data_append, ← String.data_append, h]

theorem strStartsWith_bstats_github (k : String) :
    strStartsWith (BSTATS_CACHE_PREF ++ k) GITHUB_CACHE_PREF = false := by
  rw [strStartsWith, String.data_append]
  rfl

theorem cacheGet_cacheSet_self (pre : String) (st : Store) (k : String) (v : JVal)
    (hdec : decimalJ v = true) : cacheGet pre (cacheSet pre st k v) k = some v := by
  rw [cacheGet, cacheSet, getItem_setItem_self]
  show (if jsonStringify v = "" then none else jsonParse (jsonStringify v)) = some v
  rw [if_neg (jsonStringify_ne_empty v), jsonParse_jsonStringify v hdec]

theorem cacheGet_cacheSet_other (pre : String) (st : Store) (k k2 : String) (v2 : JVal)
    (h : k2 ≠ k) : cacheGet pre (cacheSet pre st k2 v2) k = cacheGet pre st k := by
  have hne : pre ++ k2 ≠ pre ++ k := fun hh => h (string_append_right_inj hh)
  rw [cacheGet, cacheSet, getItem_setItem_other st (pre ++ k) (pre ++ k2) _ hne, cacheGet]

/-- C2.  Cache round-trip and clear: for every cache key `k` and
JSON-serializable value `v` (all JS values: numbers with finite decimal
expansions), `cache.set(k, v)` followed by `cache.get(k)` returns a value
deep-equal to `v`; a later `set` on a different key does not disturb it;
after the `clear` for `k`'s own prefix, `get(k)` is absent (`null`); a
`clear` of the other service's prefix does not evict it (shown for the
bStats prefix against the GitHub prefix). -/
theorem cache_set_get_clear (pre : String) (st : Store) (k : String) (v : JVal)
    (hdec : decimalJ v = true) (k2 : String) (v2 : JVal) (hk2 : k2 ≠ k) :
    cacheGet pre (cacheSet pre st k v) k = some v ∧
    cacheGet pre (cacheSet pre (cacheSet pre st k v) k2 v2) k = some v ∧
    cacheGet pre (cacheClear pre (cacheSet pre st k v)) k = none ∧
    cacheGet BSTATS_CACHE_PREF (cacheClear GITHUB_CACHE_PREF
      (cacheSet BSTATS_CACHE_PREF st k v)) k = some v := by
  refine ⟨cacheGet_cacheSet_self pre st k v hdec, ?_, ?_, ?_⟩
  · exact (cacheGet_cacheSet_other pre _ k k2 v2 hk2).trans
      (cacheGet_cacheSet_self pre st k v hdec)
  · rw [cacheGet, cacheClear]
    rw [getItem_filter_none]
    intro v'
    rw [strStartsWith_append]
    rfl
  · rw [cacheGet, cacheClear]
    rw [getItem_filter_same]
    · have h1 := cacheGet_cacheSet_self BSTATS_CACHE_PREF st k v hdec
      rw [cacheGet] at h1
      exact h1
    · intro v'
      rw [strStartsWith_bstats_github]
      rfl

/-- Witness for C2 at a concrete store, key and value. -/
theorem cache_set_get_clear_witness :
    decimalJ (JVal.obj [("servers", JVal.num 42)]) = true ∧
    ("plugin-charts-1" : String) ≠ "plugins-all" ∧
    (cacheGet BSTATS_CACHE_PREF (cacheSet BSTATS_CACHE_PREF [] "plugins-all"
        (JVal.obj [("servers", JVal.num 42)])) "plugins-all" =
      some (JVal.obj [("servers", JVal.num 42)]) ∧
    cacheGet BSTATS_CACHE_PREF (cacheSet BSTATS_CACHE_PREF (cacheSet BSTATS_CACHE_PREF []
        "plugins-all" (JVal.obj [("servers", JVal.num 42)])) "plugin-charts-1"
        (JVal.num 7)) "plugins-all" = some (JVal.obj [("servers", JVal.num 42)]) ∧
    cacheGet BSTATS_CACHE_PREF (cacheClear BSTATS_CACHE_PREF (cacheSet BSTATS_CACHE_PREF []
        "plugins-all" (JVal.obj [("servers", JVal.num 42)]))) "plugins-all" = none ∧
    cacheGet BSTATS_CACHE_PREF (cacheClear GITHUB_CACHE_PREF (cacheSet BSTATS_CACHE_PREF []
        "plugins-all" (JVal.obj [("servers", JVal.num 42)]))) "plugins-all" =
      some (JVal.obj [("servers", JVal.num 42)])) :=
  ⟨by with_unfolding_all decide, by decide,
    cache_set_get_clear BSTATS_CACHE_PREF [] "plugins-all"
      (JVal.obj [("servers", JVal.num 42)]) (by with_unfolding_all decide)
      "plugin-charts-1" (JVal.num 7) (by decide)⟩

/-- Decimal text of a natural number (`String(n)` for the integer ids
and caps that appear in cache keys). -/
def jsNatChars (n : ℕ) : List Char :=
  if n = 0 then ['0'] else (natDigits n).reverse.map digitToChar

/-- Cache key of `fetchChartData`:
`chart-data-${pluginId}-${chartId}-${maxElements || 'all'}`.
A falsy cap (absent or 0) renders as `all`, exactly as `||` does. -/
def fetchChartDataKey (pluginId : ℕ) (chartId : String) (maxElements : Option ℕ) : List Char :=
  "chart-data-".data ++ jsNatChars pluginId ++ ('-' :: chartId.data) ++ ('-' ::
    (match maxElements with
     | some n => if n = 0 then "all".data else jsNatChars n
     | none => "all".data))

theorem jsNatChars_decode (n : ℕ) :
    digitsVal ((jsNatChars n).map (fun c => (charToDigit c).getD 0)) = n := by
  rw [jsNatChars]
  by_cases h : n = 0
  · subst h
    decide
  · rw [if_neg h, List.map_map]
    have hmap : ((natDigits n).reverse).map ((fun c => (charToDigit c).getD 0) ∘ digitToChar) =
        ((natDigits n).reverse).map id := by
      apply List.map_congr_left
      intro d hd
      have hd10 : d < 10 := by
        rw [natDigits_eq] at hd
        exact Nat.digits_lt_base (by norm_num) (List.mem_reverse.1 hd)
      simp [Function.comp, charToDigit_digitToChar d hd10]
    rw [hmap, List.map_id, digitsVal, List.reverse_reverse, natDigits_eq, Nat.ofDigits_digits]

theorem jsNatChars_inj {m1 m2 : ℕ} (h : jsNatChars m1 = jsNatChars m2) : m1 = m2 := by
  have := congrArg (fun l => digitsVal (l.map (fun c => (charToDigit c).getD 0))) h
  simpa [jsNatChars_decode] using this

theorem jsNatChars_head (n : ℕ) :
    ∃ c cs, jsNatChars n = c :: cs ∧ charToDigit c ≠ none := by
  rw [jsNatChars]
  by_cases h : n = 0
  · subst h
    exact ⟨'0', [], by simp, by decide⟩
  · rw [if_neg h]
    have hne : (natDigits n).reverse ≠ [] := by
      rw [natDigits_eq]
      simp [Nat.digits_ne_nil_iff_ne_zero, h]
    match hr : (natDigits n).reverse with
    | [] => exact absurd hr hne
    | d :: ds =>
      have hd10 : d < 10 := by
        have : d ∈ (natDigits n).reverse := by rw [hr]; simp
        rw [natDigits_eq] at this
        exact Nat.digits_lt_base (by norm_num) (List.mem_reverse.1 this)
      exact ⟨digitToChar d, ds.map digitToChar, List.map_cons digitToChar d ds, by
        rw [charToDigit_digitToChar d hd10]; simp⟩

/-- C9.  The `fetchChartData` cache key is a deterministic function of
`(pluginId, chartId, maxElements)` — same inputs give the same key — and
two calls for the same plugin and chart with different numeric caps give
different keys (a cap of 0 is falsy and renders as `all`, which no
nonzero cap can produce), so their cached results do not collide. -/
theorem fetchChartDataKey_deterministic_and_injective :
    (∀ p c m, fetchChartDataKey p c m = fetchChartDataKey p c m) ∧
    (∀ (p : ℕ) (c : String) (m1 m2 : ℕ), m1 ≠ m2 →
      fetchChartDataKey p c (some m1) ≠ fetchChartDataKey p c (some m2)) := by
  refine ⟨fun _ _ _ => rfl, ?_⟩
  intro p c m1 m2 hne heq
  rw [fetchChartDataKey, fetchChartDataKey] at heq
  have htail : ('-' :: (if m1 = 0 then "all".data else jsNatChars m1)) =
      ('-' :: (if m2 = 0 then "all".data else jsNatChars m2)) :=
    List.append_cancel_left heq
  have htail2 : (if m1 = 0 then "all".data else jsNatChars m1) =
      (if m2 = 0 then "all".data else jsNatChars m2) := by
    injection htail
  by_cases h1 : m1 = 0 <;> by_cases h2 : m2 = 0
  · exact hne (h1.trans h2.symm)
  · rw [if_pos h1, if_neg h2] at htail2
    obtain ⟨d, ds, hcons, hdig⟩ := jsNatChars_head m2
    rw [hcons] at htail2
    have : charToDigit 'a' ≠ none := by
      have := htail2
      injection this with h1' h2'
      rw [h1']
      exact hdig
    exact this (by decide)
  · rw [if_neg h1, if_pos h2] at htail2
    obtain ⟨d, ds, hcons, hdig⟩ := jsNatChars_head m1
    rw [hcons] at htail2
    have : charToDigit 'a' ≠ none := by
      injection htail2 with h1' h2'
      rw [← h1']
      exact hdig
    exact this (by decide)
  · rw [if_neg h1, if_neg h2] at htail2
    exact hne (jsNatChars_inj htail2)

/-- Witness for C9 at the two caps the application actually uses. -/
theorem fetchChartDataKey_witness :
    (500 : ℕ) ≠ 35000 ∧
    fetchChartDataKey 24432 "servers" (some 500) ≠ fetchChartDataKey 24432 "servers" (some 35000) :=
  ⟨by decide, fetchChartDataKey_deterministic_and_injective.2 24432 "servers" 500 35000 (by decide)⟩

/-- Substring containment on character lists (`String.prototype.includes`:
`listContains hay needle` is `hay.includes(needle)`). -/
def listContains : List Char → List Char → Bool
  | [], needle => needle.isEmpty
  | c :: t, needle => needle.isPrefixOf (c :: t) || listContains t needle

/-- ASCII model of `String.prototype.toLowerCase` on one character. -/
def jsToLower (c : Char) : Char :=
  if 'A' ≤ c ∧ c ≤ 'Z' then Char.ofNat (c.toNat + 32) else c

/-- ASCII fragment of the JS whitespace class `\s`. -/
def isJsSpace (c : Char) : Bool :=
  c = ' ' || c = '\t' || c = '\n' || c = '\r' || c = '\x0b' || c = '\x0c'

/-- Lower-cased character list of a string (`s.toLowerCase()`). -/
def jsToLowerStr (s : String) : List Char := s.data.map jsToLower

/-- The `normalize` helper of `findPluginByName`:
`s.toLowerCase().replace(/[_\-\s]/g, '')`. -/
def normalizeName (s : String) : List Char :=
  (s.data.map jsToLower).filter (fun c => !(c = '_' || c = '-' || isJsSpace c))

/-- A bStats plugin record (the fields the matching logic reads; the
`software` descriptor and `isGlobal` flag are not consulted). -/
structure Plugin where
  id : ℚ
  name : String
  ownerName : String
deriving DecidableEq

/-- `findPluginByName` over a plugin directory (supplied in the source by
the cache-backed `fetchAllPlugins`): exact normalized match, else
containment either way, else owner-name match, else none.  The source's
`p.owner && ...` guard is vacuous here since `owner` is always present in
the typed record. -/
def findPluginByName (plugins : List Plugin) (name : String) : Option Plugin :=
  let target := normalizeName name
  match plugins.find? (fun p => normalizeName p.name == target) with
  | some p => some p
  | none =>
    match plugins.find? (fun p => listContains (normalizeName p.name) target ||
        listContains target (normalizeName p.name)) with
    | some p => some p
    | none => plugins.find? (fun p => normalizeName p.ownerName == target)

/-- The user-editable repo-name → plugin-id table (`BstatsMapping`). -/
abbrev BstatsMapping := List (String × ℚ)

/-- The remote bStats API as an oracle: plugin-detail fetches (`none` is
a failed `fetchPluginDetails`) and the full plugin directory. -/
structure BstatsEnv where
  pluginDetails : ℚ → Option Plugin
  plugins : List Plugin

/-- Association lookup `mapping[key]`. -/
def mapValue (mapping : BstatsMapping) (k : String) : Option ℚ :=
  (mapping.find? (fun kv => kv.1 == k)).map (fun kv => kv.2)

/-- `findPluginForRepo`: consult the manual mapping first with a
case-insensitive key comparison; on a hit fetch that plugin id directly,
falling through to name matching only if that fetch fails; otherwise
delegate to `findPluginByName`.  The mapping is supplied by
`getManualMapping` in the source. -/
def findPluginForRepo (env : BstatsEnv) (mapping : BstatsMapping) (repoName : String) :
    Option Plugin :=
  let keys := mapping.map (fun kv => kv.1)
  match keys.find? (fun k => jsToLowerStr k == jsToLowerStr repoName) with
  | some targetKey =>
    match mapValue mapping targetKey with
    | some pluginId =>
      match env.pluginDetails pluginId with
      | some plugin => some plugin
      | none => findPluginByName env.plugins repoName
    | none => findPluginByName env.plugins repoName
  | none => findPluginByName env.plugins repoName

/-- C4.  `findPluginByName` normalizes query and plugin names (lowercase,
strip underscores, hyphens, whitespace) and returns, in priority order:
first exact normalized match; else first containment match either way;
else the first owner-name match; else none.  Consequently it is case- and
separator-insensitive: two queries with the same normalization give the
same result, and `"dp-ban"` / `"DP_Ban"` both find a plugin named
`"DP-Ban"`. -/
theorem findPluginByName_spec :
    (∀ (plugins : List Plugin) (n1 n2 : String), normalizeName n1 = normalizeName n2 →
      findPluginByName plugins n1 = findPluginByName plugins n2) ∧
    (∀ (plugins : List Plugin) (name : String) (p : Plugin),
      plugins.find? (fun q => normalizeName q.name == normalizeName name) = some p →
      findPluginByName plugins name = some p) ∧
    (∀ (plugins : List Plugin) (name : String) (p : Plugin),
      plugins.find? (fun q => normalizeName q.name == normalizeName name) = none →
      plugins.find? (fun q => listContains (normalizeName q.name) (normalizeName name) ||
        listContains (normalizeName name) (normalizeName q.name)) = some p →
      findPluginByName plugins name = some p) ∧
    (∀ (plugins : List Plugin) (name : String),
      plugins.find? (fun q => normalizeName q.name == normalizeName name) = none →
      plugins.find? (fun q => listContains (normalizeName q.name) (normalizeName name) ||
        listContains (normalizeName name) (normalizeName q.name)) = none →
      findPluginByName plugins name =
        plugins.find? (fun q => normalizeName q.ownerName == normalizeName name)) ∧
    (findPluginByName [⟨27745, "DP-Ban", "DP"⟩] "dp-ban" = some ⟨27745, "DP-Ban", "DP"⟩ ∧
     findPluginByName [⟨27745, "DP-Ban", "DP"⟩] "DP_Ban" = some ⟨27745, "DP-Ban", "DP"⟩) := by
  refine ⟨?_, ?_, ?_, ?_, ?_, ?_⟩
  · intro plugins n1 n2 h
    simp only [findPluginByName, h]
  · intro plugins name p h
    simp only [findPluginByName, h]
  · intro plugins name p h1 h2
    simp only [findPluginByName, h1, h2]
  · intro plugins name h1 h2
    simp only [findPluginByName, h1, h2]
  · decide
  · decide

/-- Witness for C4: the two differently-written queries normalize alike
and get the same answer. -/
theorem findPluginByName_witness :
    normalizeName "dp-ban" = normalizeName "DP_Ban" ∧
    findPluginByName [⟨27745, "DP-Ban", "DP"⟩] "dp-ban" =
      findPluginByName [⟨27745, "DP-Ban", "DP"⟩] "DP_Ban" :=
  ⟨by decide, findPluginByName_spec.1 [⟨27745, "DP-Ban", "DP"⟩] "dp-ban" "DP_Ban" (by decide)⟩

/-- Plugin returned by the detail fetch for id 24432 in the C3 scenario. -/
def pluginA : Plugin := ⟨24432, "DPP-Core Stats", "someone"⟩

/-- A directory plugin whose name fuzzy-matches "DPP-Core" with another id. -/
def pluginB : Plugin := ⟨999, "DPP-Core", "DP"⟩

/-- Oracle for the C3 scenario: detail fetch succeeds only for id 24432,
and the directory contains only `pluginB`. -/
def env0 : BstatsEnv := ⟨fun i => if i = 24432 then some pluginA else none, [pluginB]⟩

/-- C3.  Manual mapping takes precedence over fuzzy matching: whenever a
mapping key matches the repo name case-insensitively, `findPluginForRepo`
returns the plugin fetched by the mapped id, falling through to
name-based matching only when that detail fetch fails.  In particular,
with mapping `{"DPP-Core": 24432}` and a directory plugin fuzzy-matching
"DPP-Core" under a different id, `findPluginForRepo "DPP-Core"` returns
the plugin with id 24432, not the fuzzy match. -/
theorem findPluginForRepo_spec :
    (∀ (env : BstatsEnv) (mapping : BstatsMapping) (repoName k : String) (i : ℚ) (p : Plugin),
      (mapping.map (fun kv => kv.1)).find?
        (fun k2 => jsToLowerStr k2 == jsToLowerStr repoName) = some k →
      mapValue mapping k = some i →
      env.pluginDetails i = some p →
      findPluginForRepo env mapping repoName = some p) ∧
    (∀ (env : BstatsEnv) (mapping : BstatsMapping) (repoName k : String) (i : ℚ),
      (mapping.map (fun kv => kv.1)).find?
        (fun k2 => jsToLowerStr k2 == jsToLowerStr repoName) = some k →
      mapValue mapping k = some i →
      env.pluginDetails i = none →
      findPluginForRepo env mapping repoName = findPluginByName env.plugins repoName) ∧
    (findPluginForRepo env0 [("DPP-Core", 24432)] "DPP-Core" = some pluginA ∧
     pluginA.id = 24432 ∧
     findPluginByName env0.plugins "DPP-Core" = some pluginB) := by
  refine ⟨?_, ?_, ?_⟩
  · intro env mapping repoName k i p h1 h2 h3
    simp only [findPluginForRepo, h1, h2, h3]
  · intro env mapping repoName k i h1 h2 h3
    simp only [findPluginForRepo, h1, h2, h3]
  · refine ⟨?_, by decide, by decide⟩
    decide

/-- Witness for C3 at the concrete mapping and oracle. -/
theorem findPluginForRepo_witness :
    ((([("DPP-Core", (24432 : ℚ))] : BstatsMapping).map (fun kv => kv.1)).find?
      (fun k2 => jsToLowerStr k2 == jsToLowerStr "DPP-Core") = some "DPP-Core") ∧
    (mapValue [("DPP-Core", 24432)] "DPP-Core" = some 24432) ∧
    (env0.pluginDetails 24432 = some pluginA) ∧
    findPluginForRepo env0 [("DPP-Core", 24432)] "DPP-Core" = some pluginA :=
  ⟨by decide, by decide, by decide,
    findPluginForRepo_spec.1 env0 [("DPP-Core", 24432)] "DPP-Core" "DPP-Core" 24432 pluginA
      (by decide) (by decide) (by decide)⟩

/-! ## GitHub HTTP layer (src/unnamed/part_001): C6 and C10 -/

/-- An HTTP response as the fetch wrappers see it: numeric status, status
text, and body text. -/
structure HttpResponse where
  status : ℕ
  statusText : String
  body : String
deriving DecidableEq

/-- `response.ok`: the status is in the 2xx range. -/
def respOk (r : HttpResponse) : Bool := 200 ≤ r.status && r.status ≤ 299

/-- JavaScript truthiness of a parsed JSON value (`if (cached) ...`):
`null`, `false`, `0` and `""` are falsy; every array and object is truthy. -/
def jtruthy : JVal → Bool
  | .null => false
  | .bool b => b
  | .num q => !(q == 0)
  | .str s => !(s == "")
  | .arr _ => true
  | .obj _ => true

/-- `apiFetchHtml` (part_001 lines 72-91): a non-ok response returns
`null` for status 404 and throws otherwise; an ok response returns the
body text. -/
def apiFetchHtml (endpoint : String) (r : HttpResponse) : Except String (Option String) :=
  if !(respOk r) then
    if r.status = 404 then .ok none
    else .error ("GitHub API request for " ++ endpoint ++ " failed: " ++
      String.mk (jsNatChars r.status) ++ " " ++ r.statusText ++ ".")
  else .ok (some r.body)

/-- The shared cache-backed fetch pattern (`apiFetchWithCache` in
part_001 lines 62-70, and `fetchAllPlugins` / `fetchPluginCharts` /
`fetchChartData` in bstatsService): a truthy cached value is served
as-is; otherwise the network result `net` is fetched, stored, and
returned (a network failure propagates). -/
def cachedFetch (pre : String) (st : Store) (key : String) (net : Except String JVal) :
    Except String (JVal × Store) :=
  match cacheGet pre st key with
  | some v =>
    if jtruthy v then .ok (v, st)
    else
      match net with
      | .error e => .error e
      | .ok d => .ok (d, cacheSet pre st key d)
  | none =>
    match net with
    | .error e => .error e
    | .ok d => .ok (d, cacheSet pre st key d)

/-- `commits[0] || null` (part_001 line 104): the first element when it
is truthy, else `null`. -/
def headOrNull (commits : List JVal) : JVal :=
  match commits.head? with
  | none => .null
  | some c => if jtruthy c then c else .null

/-- `fetchLatestCommit` (part_001 lines 98-107): serve a truthy cached
value; otherwise fetch the commit list, reduce it to `commits[0] || null`,
cache that and return it. -/
def fetchLatestCommit (owner repo : String) (st : Store) (net : Except String (List JVal)) :
    Except String (JVal × Store) :=
  match cacheGet GITHUB_CACHE_PREF st ("commit-" ++ owner ++ "-" ++ repo) with
  | some v =>
    if jtruthy v then .ok (v, st)
    else
      match net with
      | .error e => .error e
      | .ok commits => .ok (headOrNull commits,
          cacheSet GITHUB_CACHE_PREF st ("commit-" ++ owner ++ "-" ++ repo) (headOrNull commits))
  | none =>
    match net with
    | .error e => .error e
    | .ok commits => .ok (headOrNull commits,
        cacheSet GITHUB_CACHE_PREF st ("commit-" ++ owner ++ "-" ++ repo) (headOrNull commits))

/-- How `JSON.stringify` sees the `string | null` README result. -/
def jvalOfStrOpt : Option String → JVal
  | some s => .str s
  | none => .null

/-- How a cached JSON value is read back at type `string | null`: under
the service's own writes a truthy cached value is always a string. -/
def jvalAsStrOpt : JVal → Option String
  | .str s => some s
  | _ => none

/-- `fetchReadmeHtml` (part_001 lines 113-122): serve a truthy cached
value; otherwise call `apiFetchHtml` on the readme endpoint, cache the
result (possibly `null`), and return it. -/
def fetchReadmeHtml (owner repo : String) (st : Store) (r : HttpResponse) :
    Except String (Option String × Store) :=
  match cacheGet GITHUB_CACHE_PREF st ("readme-" ++ owner ++ "-" ++ repo) with
  | some v =>
    if jtruthy v then .ok (jvalAsStrOpt v, st)
    else
      match apiFetchHtml ("/repos/" ++ owner ++ "/" ++ repo ++ "/readme") r with
      | .error e => .error e
      | .ok data => .ok (data,
          cacheSet GITHUB_CACHE_PREF st ("readme-" ++ owner ++ "-" ++ repo) (jvalOfStrOpt data))
  | none =>
    match apiFetchHtml ("/repos/" ++ owner ++ "/" ++ repo ++ "/readme") r with
    | .error e => .error e
    | .ok data => .ok (data,
        cacheSet GITHUB_CACHE_PREF st ("readme-" ++ owner ++ "-" ++ repo) (jvalOfStrOpt data))

/-- C6.  On a fresh call (no cached readme), `fetchReadmeHtml` returns
`null` (not a failure) exactly when the HTTP status is 404; a 2xx
response returns the body text (and caches it); every other non-2xx
response raises a failure. -/
theorem fetchReadmeHtml_spec :
    ∀ (owner repo : String) (st : Store) (r : HttpResponse),
      cacheGet GITHUB_CACHE_PREF st ("readme-" ++ owner ++ "-" ++ repo) = none →
      (((∃ st2, fetchReadmeHtml owner repo st r = .ok (none, st2)) ↔ r.status = 404) ∧
       (respOk r = true → fetchReadmeHtml owner repo st r = .ok (some r.body,
         cacheSet GITHUB_CACHE_PREF st ("readme-" ++ owner ++ "-" ++ repo) (.str r.body))) ∧
       (respOk r = false → r.status ≠ 404 →
         ∃ msg, fetchReadmeHtml owner repo st r = .error msg)) := by
  intro owner repo st r hmiss
  have hbase : fetchReadmeHtml owner repo st r =
      match apiFetchHtml ("/repos/" ++ owner ++ "/" ++ repo ++ "/readme") r with
      | .error e => .error e
      | .ok data => .ok (data,
          cacheSet GITHUB_CACHE_PREF st ("readme-" ++ owner ++ "-" ++ repo) (jvalOfStrOpt data)) := by
    rw [fetchReadmeHtml, hmiss]
  by_cases hok : respOk r = true
  · have hfetch : apiFetchHtml ("/repos/" ++ owner ++ "/" ++ repo ++ "/readme") r =
        .ok (some r.body) := by
      rw [apiFetchHtml, hok]
      rfl
    refine ⟨?_, ?_, ?_⟩
    · constructor
      · rintro ⟨st2, hst2⟩
        rw [hbase, hfetch] at hst2
        exact absurd (congrArg (fun x => match x with
          | Except.ok (p, _) => p
          | Except.error _ => some "") hst2) (by simp)
      · intro h404
        exfalso
        rw [respOk, h404] at hok
        simp at hok
    · intro _
      rw [hbase, hfetch]
      rfl
    · intro hok2 _
      rw [hok] at hok2
      exact absurd hok2 (by simp)
  · have hok2 : respOk r = false := by
      cases hr : respOk r
      · rfl
      · exact absurd hr hok
    by_cases h4 : r.status = 404
    · have hfetch : apiFetchHtml ("/repos/" ++ owner ++ "/" ++ repo ++ "/readme") r =
          .ok none := by
        rw [apiFetchHtml, hok2, h4]
        rfl
      refine ⟨?_, ?_, ?_⟩
      · constructor
        · intro _
          exact h4
        · intro _
          exact ⟨_, by rw [hbase, hfetch]⟩
      · intro hok3
        rw [hok2] at hok3
        exact absurd hok3 (by simp)
      · intro _ h4'
        exact absurd h4 h4'
    · have hfetch : apiFetchHtml ("/repos/" ++ owner ++ "/" ++ repo ++ "/readme") r =
          .error ("GitHub API request for " ++ ("/repos/" ++ owner ++ "/" ++ repo ++ "/readme") ++
            " failed: " ++ String.mk (jsNatChars r.status) ++ " " ++ r.statusText ++ ".") := by
        rw [apiFetchHtml, hok2, if_neg h4]
        rfl
      refine ⟨?_, ?_, ?_⟩
      · constructor
        · rintro ⟨st2, hst2⟩
          rw [hbase, hfetch] at hst2
          exact absurd hst2 (by simp)
        · intro h404
          exact absurd h404 h4
      · intro hok3
        rw [hok2] at hok3
        exact absurd hok3 (by simp)
      · intro _ _
        exact ⟨_, by rw [hbase, hfetch]⟩

/-- Witness for C6: a 404 on an empty cache yields a null readme. -/
theorem fetchReadmeHtml_witness :
    cacheGet GITHUB_CACHE_PREF [] ("readme-" ++ "darksoldier1404" ++ "-" ++ "DPP") = none ∧
    (∃ st2, fetchReadmeHtml "darksoldier1404" "DPP" [] ⟨404, "Not Found", ""⟩ =
      .ok (none, st2)) :=
  ⟨rfl, (fetchReadmeHtml_spec "darksoldier1404" "DPP" [] ⟨404, "Not Found", ""⟩ rfl).1.mpr rfl⟩

theorem filter_idem (p : String × String → Bool) (st : Store) :
    (st.filter p).filter p = st.filter p := by
  induction st with
  | nil => rfl
  | cons a st ih =>
    by_cases hp : p a = true
    · simp [List.filter_cons, hp, ih]
    · simp [List.filter_cons, Bool.eq_false_iff.2 hp, ih]

theorem cacheGet_removeItem_self (pre : String) (st : Store) (key : String) :
    cacheGet pre (removeItem st (pre ++ key)) key = none := by
  have h : getItem (removeItem st (pre ++ key)) (pre ++ key) = none :=
    getItem_filter_none st (pre ++ key) (fun v => by simp)
  rw [cacheGet, h]

theorem cacheSet_removeItem (pre : String) (st : Store) (key : String) (d : JVal) :
    cacheSet pre (removeItem st (pre ++ key)) key d = cacheSet pre st key d := by
  show (pre ++ key, jsonStringify d) ::
      (st.filter (fun kv => !(kv.1 == pre ++ key))).filter (fun kv => !(kv.1 == pre ++ key)) =
    (pre ++ key, jsonStringify d) :: st.filter (fun kv => !(kv.1 == pre ++ key))
  rw [filter_idem]

/-- A truthy commit object for the C10 scenario. -/
def commitC : JVal := .obj [("sha", .str "abc")]

/-- C10.  Cache hits are decided by JavaScript truthiness: a falsy cached
value (here `null`, as stored for an absent commit or readme) makes every
cache-backed fetch behave exactly as if the entry were absent, so the
network is consulted again.  Concretely: an empty commit list caches
`null`, and the next call fetches and returns the fresh commit instead of
serving the cached `null`; a cached `null` readme likewise refetches. -/
theorem cachedFetch_truthiness :
    (∀ (pre : String) (st : Store) (key : String) (net : Except String JVal) (v : JVal),
      cacheGet pre st key = some v → jtruthy v = false →
      cachedFetch pre st key net = cachedFetch pre (removeItem st (pre ++ key)) key net) ∧
    (fetchLatestCommit "o" "r" [] (.ok []) =
      .ok (.null, cacheSet GITHUB_CACHE_PREF [] "commit-o-r" .null) ∧
     fetchLatestCommit "o" "r" (cacheSet GITHUB_CACHE_PREF [] "commit-o-r" .null)
        (.ok [commitC]) =
      .ok (commitC, cacheSet GITHUB_CACHE_PREF
        (cacheSet GITHUB_CACHE_PREF [] "commit-o-r" .null) "commit-o-r" commitC)) ∧
    (fetchReadmeHtml "o" "r" (cacheSet GITHUB_CACHE_PREF [] "readme-o-r" .null)
        ⟨200, "OK", "<h1>hi</h1>"⟩ =
      .ok (some "<h1>hi</h1>", cacheSet GITHUB_CACHE_PREF
        (cacheSet GITHUB_CACHE_PREF [] "readme-o-r" .null) "readme-o-r"
        (.str "<h1>hi</h1>"))) := by
  refine ⟨?_, ⟨?_, ?_⟩, ?_⟩
  · intro pre st key net v h hv
    simp only [cachedFetch, h, hv, cacheGet_removeItem_self, cacheSet_removeItem,
      Bool.false_eq_true, if_false]
  · with_unfolding_all rfl
  · with_unfolding_all rfl
  · with_unfolding_all rfl

/-- Witness for C10: the cached `null` commit is falsy, and the fetch on
that store equals the fetch on the store with the entry removed. -/
theorem cachedFetch_truthiness_witness :
    cacheGet GITHUB_CACHE_PREF (cacheSet GITHUB_CACHE_PREF [] "commit-o-r" .null)
      "commit-o-r" = some .null ∧
    jtruthy .null = false ∧
    cachedFetch GITHUB_CACHE_PREF (cacheSet GITHUB_CACHE_PREF [] "commit-o-r" .null)
        "commit-o-r" (.ok commitC) =
      cachedFetch GITHUB_CACHE_PREF
        (removeItem (cacheSet GITHUB_CACHE_PREF [] "commit-o-r" .null)
          (GITHUB_CACHE_PREF ++ "commit-o-r")) "commit-o-r" (.ok commitC) :=
  ⟨by with_unfolding_all rfl, rfl,
    cachedFetch_truthiness.1 GITHUB_CACHE_PREF _ "commit-o-r" (.ok commitC) .null
      (by with_unfolding_all rfl) rfl⟩

/-! ## App-level 401 handling (src/src/App.tsx): C8 -/

/-- `String.prototype.includes`. -/
def containsStr (s sub : String) : Bool := listContains s.data sub.data

/-- `handleLogout` (App.tsx lines 30-35): remove the stored token and
clear the GitHub cache (`clearCache`). -/
def handleLogout (st : Store) : Store :=
  cacheClear GITHUB_CACHE_PREF (removeItem st "github-token")

/-- The observable outcome of `fetchData`'s error handler: the resulting
localStorage and the error message set. -/
structure AppErrState where
  store : Store
  errMsg : String
deriving DecidableEq

/-- The catch branch of `fetchData` (App.tsx lines 52-63): rate-limit
messages are recognized first, then a message containing `401` forces a
logout, anything else is reported verbatim. -/
def fetchDataCatch (st : Store) (msg : String) : AppErrState :=
  if containsStr msg "API rate limit exceeded" then
    ⟨st, "GitHub API rate limit exceeded. Authenticated requests have a higher limit. Please check your token or try again later."⟩
  else if containsStr msg "401" then
    ⟨handleLogout st, "Authentication failed. Your GitHub token may be invalid or expired."⟩
  else
    ⟨st, "Failed to fetch data: " ++ msg⟩

theorem getItem_filter_sub (q : String × String → Bool) (st : Store) (k : String)
    (h : getItem st k = none) : getItem (st.filter q) k = none := by
  induction st with
  | nil => rfl
  | cons a st ih =>
    by_cases hk : a.1 = k
    · exfalso
      have hbeq : (a.1 == k) = true := by simp [hk]
      rw [getItem, List.find?_cons, hbeq] at h
      exact Option.noConfusion h
    · have hbeq : (a.1 == k) = false := by simp [hk]
      rw [getItem, List.find?_cons, hbeq] at h
      by_cases hq : q a = true
      · rw [List.filter_cons, if_pos hq, getItem, List.find?_cons, hbeq]
        exact ih h
      · rw [List.filter_cons, if_neg hq]
        exact ih h

/-- C8.  When the fetch error message contains `401` (and is not a
rate-limit message, which is recognized first), the handler removes the
stored GitHub token, clears every cache entry under the GitHub prefix,
and reports the authentication failure. -/
theorem fetchDataCatch_401 :
    ∀ (st : Store) (msg : String),
      containsStr msg "API rate limit exceeded" = false →
      containsStr msg "401" = true →
      getItem (fetchDataCatch st msg).store "github-token" = none ∧
      (∀ k : String, strStartsWith k GITHUB_CACHE_PREF = true →
        getItem (fetchDataCatch st msg).store k = none) ∧
      (fetchDataCatch st msg).errMsg =
        "Authentication failed. Your GitHub token may be invalid or expired." := by
  intro st msg hrate h401
  have hbr : fetchDataCatch st msg =
      ⟨handleLogout st, "Authentication failed. Your GitHub token may be invalid or expired."⟩ := by
    rw [fetchDataCatch, hrate, h401]
    simp
  rw [hbr]
  refine ⟨?_, ?_, rfl⟩
  · exact getItem_filter_sub _ _ _ (getItem_filter_none st "github-token" (fun v => by simp))
  · intro k hk
    exact getItem_filter_none _ k (fun v => by simp [hk])

/-- Witness for C8: a concrete 401 failure message on a concrete store
removes the token and evicts a GitHub cache entry. -/
theorem fetchDataCatch_401_witness :
    containsStr "GitHub API request for /orgs/darksoldier1404/repos failed: 401 Unauthorized. Message: Bad credentials"
      "API rate limit exceeded" = false ∧
    containsStr "GitHub API request for /orgs/darksoldier1404/repos failed: 401 Unauthorized. Message: Bad credentials"
      "401" = true ∧
    getItem (fetchDataCatch
      [("github-token", "tok"), ("github-cache-repos-darksoldier1404", "[]"), ("language", "en")]
      "GitHub API request for /orgs/darksoldier1404/repos failed: 401 Unauthorized. Message: Bad credentials").store
      "github-token" = none ∧
    getItem (fetchDataCatch
      [("github-token", "tok"), ("github-cache-repos-darksoldier1404", "[]"), ("language", "en")]
      "GitHub API request for /orgs/darksoldier1404/repos failed: 401 Unauthorized. Message: Bad credentials").store
      "github-cache-repos-darksoldier1404" = none :=
  ⟨by decide, by decide,
    (fetchDataCatch_401
      [("github-token", "tok"), ("github-cache-repos-darksoldier1404", "[]"), ("language", "en")]
      "GitHub API request for /orgs/darksoldier1404/repos failed: 401 Unauthorized. Message: Bad credentials"
      (by decide) (by decide)).1,
    (fetchDataCatch_401
      [("github-token", "tok"), ("github-cache-repos-darksoldier1404", "[]"), ("language", "en")]
      "GitHub API request for /orgs/darksoldier1404/repos failed: 401 Unauthorized. Message: Bad credentials"
      (by decide) (by decide)).2.1 "github-cache-repos-darksoldier1404" (by decide)⟩

/-! ## Settings mapping save (src/src/components/Settings.tsx): C7 -/

/-- Verdict of the mapping save handler: the validation error set (if
any) and the resulting localStorage. -/
structure SaveOutcome where
  bstatsError : Option String
  store : Store

/-- `typeof x === 'number'` on a parsed JSON value. -/
def isNumV : JVal → Bool
  | .num _ => true
  | _ => false

/-- The bstats-mapping part of `handleSave` (Settings.tsx lines 37-58):
`JSON.parse(text || '\x7b\x7d')`; a parse failure is rejected as invalid
JSON; a non-object or an array is rejected with a shape error; a parsed
`null` passes the typeof test but `Object.keys(null)` throws, and the
same catch reports invalid JSON; the first key with a non-numeric value
is rejected with a per-key message; otherwise the re-serialized mapping
is persisted under `bstats-mapping`. -/
def handleSaveMapping (st : Store) (text : String) : SaveOutcome :=
  match jsonParse (if text = "" then String.mk [lbraceC, rbraceC] else text) with
  | none => ⟨some "Invalid JSON. Please fix formatting.", st⟩
  | some (.obj fields) =>
    match fields.find? (fun kv => !(isNumV kv.2)) with
    | some kv => ⟨some ("Plugin ID for \"" ++ kv.1 ++ "\" must be a number."), st⟩
    | none => ⟨none, setItem st "bstats-mapping" (jsonStringify (.obj fields))⟩
  | some .null => ⟨some "Invalid JSON. Please fix formatting.", st⟩
  | some _ =>
    ⟨some "Mapping must be a JSON object with repo names as keys and numeric plugin IDs as values.", st⟩

/-- C7.  The save handler persists the mapping only when the text parses
as a JSON object all of whose values are numbers; any validation error
leaves the store unchanged; the first non-numeric value yields its
per-key message; an array yields the shape error; unparseable text yields
the invalid-JSON error; and saving `\x7b"Foo":"bar"\x7d` is rejected with
the per-key validation error, persisting nothing. -/
theorem handleSave_spec :
    ∀ (st : Store) (text : String),
      (∀ fields, jsonParse (if text = "" then String.mk [lbraceC, rbraceC] else text) =
          some (.obj fields) →
        fields.find? (fun kv => !(isNumV kv.2)) = none →
        handleSaveMapping st text =
          ⟨none, setItem st "bstats-mapping" (jsonStringify (.obj fields))⟩) ∧
      (∀ msg, (handleSaveMapping st text).bstatsError = some msg →
        (handleSaveMapping st text).store = st) ∧
      (∀ fields kv, jsonParse (if text = "" then String.mk [lbraceC, rbraceC] else text) =
          some (.obj fields) →
        fields.find? (fun kv2 => !(isNumV kv2.2)) = some kv →
        (handleSaveMapping st text).bstatsError =
          some ("Plugin ID for \"" ++ kv.1 ++ "\" must be a number.")) ∧
      (∀ xs, jsonParse (if text = "" then String.mk [lbraceC, rbraceC] else text) =
          some (.arr xs) →
        (handleSaveMapping st text).bstatsError =
          some "Mapping must be a JSON object with repo names as keys and numeric plugin IDs as values.") ∧
      (jsonParse (if text = "" then String.mk [lbraceC, rbraceC] else text) = none →
        (handleSaveMapping st text).bstatsError = some "Invalid JSON. Please fix formatting.") ∧
      (handleSaveMapping st "\x7b\"Foo\":\"bar\"\x7d" =
        ⟨some "Plugin ID for \"Foo\" must be a number.", st⟩) := by
  intro st text
  refine ⟨?_, ?_, ?_, ?_, ?_, ?_⟩
  · intro fields hp hf
    simp only [handleSaveMapping, hp, hf]
  · intro msg hmsg
    rcases hp : jsonParse (if text = "" then String.mk [lbraceC, rbraceC] else text) with _ | v
    · simp only [handleSaveMapping, hp]
    · cases v with
      | obj fields =>
        rcases hf : fields.find? (fun kv => !(isNumV kv.2)) with _ | kv
        · exfalso
          simp only [handleSaveMapping, hp, hf] at hmsg
          exact Option.noConfusion hmsg
        · simp only [handleSaveMapping, hp, hf]
      | null => simp only [handleSaveMapping, hp]
      | bool b => simp only [handleSaveMapping, hp]
      | num q => simp only [handleSaveMapping, hp]
      | str s => simp only [handleSaveMapping, hp]
      | arr xs => simp only [handleSaveMapping, hp]
  · intro fields kv hp hf
    simp only [handleSaveMapping, hp, hf]
  · intro xs hp
    simp only [handleSaveMapping, hp]
  · intro hp
    simp only [handleSaveMapping, hp]
  · with_unfolding_all rfl

/-- Witness for C7: the concrete rejected mapping text, its parse, and
the failing key. -/
theorem handleSave_spec_witness :
    jsonParse "\x7b\"Foo\":\"bar\"\x7d" = some (.obj [("Foo", .str "bar")]) ∧
    ([("Foo", JVal.str "bar")].find? (fun kv2 => !(isNumV kv2.2)) = some ("Foo", .str "bar")) ∧
    (handleSaveMapping [] "\x7b\"Foo\":\"bar\"\x7d").bstatsError =
      some ("Plugin ID for \"" ++ "Foo" ++ "\" must be a number.") :=
  ⟨by with_unfolding_all rfl, rfl,
    (handleSave_spec [] "\x7b\"Foo\":\"bar\"\x7d").2.2.1 [("Foo", .str "bar")] ("Foo", .str "bar")
      (by with_unfolding_all rfl) rfl⟩

/-! ## Chart data normalization (src/src/components/StatsDetail.tsx): C1 and C5 -/

/-- A drilldown map (`Record<string, number>`); its values are genuine
numbers because every write in the source is NaN-guarded. -/
abbrev Drill := List (String × ℚ)

/-- Field lookup on a parsed JSON object (`o[k]`; `none` = undefined). -/
def jGet (fields : List (String × JVal)) (k : String) : Option JVal :=
  (fields.find? (fun kv => kv.1 == k)).map (fun kv => kv.2)

/-- `k in o`. -/
def jHas (fields : List (String × JVal)) (k : String) : Bool :=
  (fields.find? (fun kv => kv.1 == k)).isSome

/-- Whether a value is the JSON `null`. -/
def isNullV : JVal → Bool
  | .null => true
  | _ => false

/-- The nullish-coalescing step `x ?? d`: `d` when `x` is undefined
(`none`) or `null`, else `x`. -/
def nullishDefault (x : Option JVal) (d : JVal) : JVal :=
  match x with
  | some v => if isNullV v then d else v
  | none => d

/-- Property access `o[k]` on a non-null value: objects give their field,
primitives and arrays give undefined (no own named properties arise in
this data). -/
def propOf : JVal → String → Option JVal
  | .obj fields, k => jGet fields k
  | _, _ => none

mutual
/-- `String(v)` for an element inside `Array.prototype.join`: `null`
joins as the empty string. -/
def jsItemChars : JVal → List Char
  | .null => []
  | .bool b => if b then ['t','r','u','e'] else ['f','a','l','s','e']
  | .num q => qChars q
  | .str s => s.data
  | .arr xs => jsArrJoin xs
  | .obj _ => ("[object Object]" : String).data

/-- `Array.prototype.toString`: elements joined with commas. -/
def jsArrJoin : List JVal → List Char
  | [] => []
  | [x] => jsItemChars x
  | x :: y :: xs => jsItemChars x ++ ',' :: jsArrJoin (y :: xs)
end

/-- `String(v)`: like the join elements except that `null` prints as
`"null"`. -/
def jsStringOf (v : JVal) : List Char :=
  match v with
  | .null => ['n','u','l','l']
  | w => jsItemChars w

/-- Mantissa of a JS decimal numeric string: digits with an optional
fractional part, or a leading dot with digits. -/
def parseMantissa (cs : List Char) : Option (ℚ × List Char) :=
  match spanDigits cs with
  | ([], _) =>
    match cs with
    | '.' :: rest =>
      match spanDigits rest with
      | ([], _) => none
      | (fds, rest2) => some ((digitsVal fds : ℚ) / (10 : ℚ) ^ fds.length, rest2)
    | _ => none
  | (ids, rest) =>
    match rest with
    | '.' :: rest2 =>
      match spanDigits rest2 with
      | (fds, rest3) => some ((digitsVal ids : ℚ) + (digitsVal fds : ℚ) / (10 : ℚ) ^ fds.length, rest3)
    | _ => some ((digitsVal ids : ℚ), rest)

/-- Optional exponent part `e`/`E` with optional sign and digits. -/
def parseExpPart (cs : List Char) : Option (ℤ × List Char) :=
  match cs with
  | c :: rest =>
    if c = 'e' ∨ c = 'E' then
      match rest with
      | '+' :: r2 =>
        (match spanDigits r2 with
         | ([], _) => none
         | (ds, r3) => some ((digitsVal ds : ℤ), r3))
      | '-' :: r2 =>
        (match spanDigits r2 with
         | ([], _) => none
         | (ds, r3) => some (-(digitsVal ds : ℤ), r3))
      | _ =>
        (match spanDigits rest with
         | ([], _) => none
         | (ds, r3) => some ((digitsVal ds : ℤ), r3))
    else some (0, cs)
  | [] => some (0, [])

/-- JavaScript `Number(s)` on a string: trim, empty is 0, otherwise the
signed decimal literal grammar (hexadecimal and `Infinity`, which this
program's data never produces, are out of the model and read as NaN). -/
def jsStrToNum (s : String) : JNum :=
  let t := ((s.data.dropWhile isJsSpace).reverse.dropWhile isJsSpace).reverse
  match t with
  | [] => some 0
  | _ =>
    let p := match t with
      | '-' :: r => (true, r)
      | '+' :: r => (false, r)
      | _ => (false, t)
    match parseMantissa p.2 with
    | none => none
    | some (m, rest) =>
      match parseExpPart rest with
      | some (e, []) => some ((if p.1 then -m else m) * (10 : ℚ) ^ e)
      | _ => none

/-- JavaScript `Number(v)` on a parsed JSON value: `null` is 0, booleans
are 0/1, strings go through the numeric grammar, arrays through their
joined string, and plain objects are NaN. -/
def jsNumber : JVal → JNum
  | .null => some 0
  | .bool b => some (if b then 1 else 0)
  | .num q => some q
  | .str s => jsStrToNum s
  | .arr xs => jsStrToNum (String.mk (jsArrJoin xs))
  | .obj _ => none

/-- Sum of `Number(val)` over a list of values, skipping NaN. -/
def sumNumeric (vals : List JVal) : ℚ :=
  vals.foldl (fun s val =>
    match jsNumber val with
    | some n => s + n
    | none => s) 0

/-- Contribution of `maybe = it[1]` in `sumValue`'s array branch
(StatsDetail.tsx lines 177-184): a number adds itself; an array of
length ≥ 2 adds `Number` of its last element when finite; any other
object (including short arrays) adds its NaN-filtered numeric values;
everything else adds `Number(maybe)` when finite. -/
def arrMaybeContrib (maybe : JVal) : ℚ :=
  match maybe with
  | .num q => q
  | .arr (a :: b :: t) =>
    (match jsNumber ((a :: b :: t).getLastD .null) with
     | some n => n
     | none => 0)
  | .arr xs => sumNumeric xs
  | .obj fields => sumNumeric (fields.map (fun kv => kv.2))
  | m =>
    (match jsNumber m with
     | some n => n
     | none => 0)

/-- One `for (const it of v)` iteration of `sumValue`'s array branch
(lines 176-194): pairs contribute through their second slot, objects
through `y`/`value` or their numeric values, everything else through
`Number(it)`. -/
def arrItemContrib (it : JVal) : ℚ :=
  match it with
  | .arr (a :: b :: t) => arrMaybeContrib b
  | .arr xs => sumNumeric xs
  | .obj fields =>
    if jHas fields "y" || jHas fields "value" then
      (match jsNumber (nullishDefault (jGet fields "y")
          (nullishDefault (jGet fields "value") (.num 0))) with
       | some n => n
       | none => 0)
    else sumNumeric (fields.map (fun kv => kv.2))
  | v =>
    (match jsNumber v with
     | some n => n
     | none => 0)

/-- The backwards scan `for (let i = vv.length - 1; i >= 0; i--)` of
`sumValue`'s object branch (lines 204-214), given the elements already
reversed: the first candidate yielding a number wins. -/
def drillScanFwd : List JVal → Option ℚ
  | [] => none
  | candidate :: rest =>
    match candidate with
    | .arr (a :: b :: t) =>
      (match jsNumber b with
       | some n => some n
       | none => drillScanFwd rest)
    | .num q => some q
    | .obj fields =>
      let ss := sumNumeric (fields.map (fun kv => kv.2))
      if 0 < ss then some ss else drillScanFwd rest
    | .arr xs =>
      let ss := sumNumeric xs
      if 0 < ss then some ss else drillScanFwd rest
    | _ => drillScanFwd rest

/-- One `for (const [k, vv] of Object.entries(v))` iteration of
`sumValue`'s object branch (lines 202-227): the drill entry recorded for
the key, if any. -/
def objEntryContrib (vv : JVal) : Option ℚ :=
  match vv with
  | .arr xs => drillScanFwd xs.reverse
  | v =>
    match jsNumber v with
    | some n => some n
    | none =>
      match v with
      | .obj fields =>
        let ss := sumNumeric (fields.map (fun kv => kv.2))
        if 0 < ss then some ss else none
      | _ => none

/-- `sumValue`'s object branch: fold the entries into a total and a
drill map. -/
def sumValueObj (entries : List (String × JVal)) : ℚ × Drill :=
  entries.foldl (fun acc kv =>
    match objEntryContrib kv.2 with
    | some n => (acc.1 + n, acc.2 ++ [(kv.1, n)])
    | none => acc) (0, [])

/-- `sumValue`'s array branch. -/
def sumValueArr (xs : List JVal) : ℚ := xs.foldl (fun s it => s + arrItemContrib it) 0

/-- `sumValue` (StatsDetail.tsx lines 164-231): reduce an arbitrary
payload value to a numeric total, plus a drill map for object payloads.
Every addition in the source is NaN-guarded, so the total is a genuine
rational; a non-empty non-numeric string falls through every branch to
`return \x7b value: 0 \x7d`. -/
def sumValue (v : JVal) : ℚ × Option Drill :=
  match v with
  | .null => (0, none)
  | .num q => (q, none)
  | .str s =>
    if s ≠ "" then
      (match jsStrToNum s with
       | some n => (n, none)
       | none => (0, none))
    else (0, none)
  | .arr xs => (sumValueArr xs, none)
  | .obj entries =>
    let r := sumValueObj entries
    (r.1, if r.2.isEmpty then none else some r.2)
  | .bool _ => (0, none)

/-- An entry produced by `parsePieData`: the label as the source computes
it (`none` = undefined), the numeric value (NaN possible only on the
unguarded `Number(...)` conversions), and an optional drill map. -/
structure PieDatum where
  label : Option JVal
  value : JNum
  drill : Option Drill

/-- The name/y array branch `raw.map(...)` (lines 238-243): a `null`
element makes `it.name` throw. -/
def mapNameY : List JVal → Except Unit (List PieDatum)
  | [] => .ok []
  | it :: rest =>
    match it with
    | .null => .error ()
    | v =>
      match mapNameY rest with
      | .error e => .error e
      | .ok tail =>
        .ok (⟨propOf v "name",
          jsNumber (nullishDefault (propOf v "y") (nullishDefault (propOf v "value") (.num 0))),
          none⟩ :: tail)

/-- `Array.isArray(it) && it.length >= 2`. -/
def isPair : JVal → Bool
  | .arr (_ :: _ :: _) => true
  | _ => false

/-- `p[0]` of a pair (only applied to values passing `isPair`). -/
def pairFst : JVal → JVal
  | .arr (a :: _) => a
  | _ => .null

/-- `p[1]` of a pair (only applied to values passing `isPair`). -/
def pairSnd : JVal → JVal
  | .arr (_ :: b :: _) => b
  | _ => .null

/-- The pair-array and last-snapshot fallbacks of the array branch
(lines 246-259). -/
def pairsOrLast (xs : List JVal) : Except Unit (List PieDatum) :=
  let pairs := xs.filter isPair
  if pairs.isEmpty then
    match xs.getLast? with
    | some (.obj fields) =>
      .ok (fields.map (fun kv =>
        match sumValue kv.2 with
        | (s, d) => ⟨some (.str kv.1), some s, d⟩))
    | _ => .ok []
  else
    .ok (pairs.map (fun p =>
      ⟨some (.str (String.mk (jsStringOf (pairFst p)))), jsNumber (pairSnd p), none⟩))

/-- The backwards scan over a seriesData timeseries (lines 273-278),
given the elements already reversed; the source's three separate `if`s
mean an array element always yields (possibly through `Number(el.y ??
el.value ?? 0) = 0`), while a failing object or a primitive continues. -/
def seriesLastScan : List JVal → ℚ
  | [] => 0
  | el :: rest =>
    match el with
    | .arr (a :: b :: t) =>
      (match jsNumber b with
       | some n => n
       | none => 0)
    | .num q => q
    | .arr xs => 0
    | .obj fields =>
      (match jsNumber (nullishDefault (jGet fields "y")
          (nullishDefault (jGet fields "value") (.num 0))) with
       | some n => n
       | none => seriesLastScan rest)
    | _ => seriesLastScan rest

/-- One `for (const it of arr)` iteration of the seriesData branch
(lines 266-289): the item pushed, if any. -/
def seriesItemOf (it : JVal) : Option PieDatum :=
  match it with
  | .arr (a :: b :: t) =>
    let name : Option JVal := some (.str (String.mk (jsStringOf a)))
    (match b with
     | .arr xs => some ⟨name, some (seriesLastScan xs.reverse), none⟩
     | .obj entries2 =>
       (match sumValue (.obj entries2) with
        | (s, d) => some ⟨name, some s, d⟩)
     | v => some ⟨name, jsNumber v, none⟩)
  | .obj fields =>
    if jHas fields "name" && (jHas fields "y" || jHas fields "value") then
      some ⟨jGet fields "name",
        jsNumber (nullishDefault (jGet fields "y") (nullishDefault (jGet fields "value") (.num 0))),
        none⟩
    else none
  | _ => none

/-- NaN-filtered numeric entries of an object (the reduce fallback on
line 297); arrays are objects whose keys are their indices. -/
def numericEntriesList (kvs : List (String × JVal)) : Drill :=
  kvs.foldl (fun acc kv =>
    match jsNumber kv.2 with
    | some n => acc ++ [(kv.1, n)]
    | none => acc) []

/-- The index-keyed view `Object.keys` takes of an array. -/
def idxKeyed (xs : List JVal) : List (String × JVal) :=
  ((List.range xs.length).zip xs).map (fun p => (String.mk (jsNatChars p.1), p.2))

def numericEntries (d : JVal) : Drill :=
  match d with
  | .obj fields => numericEntriesList fields
  | .arr xs => numericEntriesList (idxKeyed xs)
  | _ => []

/-- The property key a label coerces to in `drillMap[itm.label]`. -/
def labelKeyChars (l : Option JVal) : List Char :=
  match l with
  | some v => jsStringOf v
  | none => ("undefined" : String).data

/-- `m[key]` on the drill map (an object or, via its indices, an array). -/
def propLookup (m : JVal) (key : String) : Option JVal :=
  match m with
  | .obj fields => jGet fields key
  | .arr xs => jGet (idxKeyed xs) key
  | _ => none

/-- The drill-attachment loop body (lines 293-300): when the drill map
holds a truthy object for the item's label, attach its drill (from
`sumValue`, else the numeric-entry reduce) and replace a zero value by
the summed one (`typeof itm.value !== 'number'` never holds, NaN
included, so only `itm.value === 0` replaces). -/
def attachDrill (drillMap : JVal) (itm : PieDatum) : PieDatum :=
  match propLookup drillMap (String.mk (labelKeyChars itm.label)) with
  | some d =>
    (match d with
     | .obj fields =>
       let summed := sumValue (.obj fields)
       ⟨itm.label,
        (match itm.value with
         | some q => if q = 0 then some summed.1 else itm.value
         | none => itm.value),
        (match summed.2 with
         | some dr => some dr
         | none => some (numericEntries (.obj fields)))⟩
     | .arr xs =>
       let summed := sumValue (.arr xs)
       ⟨itm.label,
        (match itm.value with
         | some q => if q = 0 then some summed.1 else itm.value
         | none => itm.value),
        (match summed.2 with
         | some dr => some dr
         | none => some (numericEntries (.arr xs)))⟩
     | _ => itm)
  | none => itm

/-- `a || b` over possibly-absent values: the first truthy one. -/
def orTruthy (a b : Option JVal) : Option JVal :=
  match a with
  | some v => if jtruthy v then some v else b
  | none => b

/-- `raw.drilldownData || raw.drilldown || raw.drilldownMap`. -/
def drillMapOf (fields : List (String × JVal)) : Option JVal :=
  orTruthy (jGet fields "drilldownData")
    (orTruthy (jGet fields "drilldown") (jGet fields "drilldownMap"))

/-- `parsePieData` (StatsDetail.tsx lines 161-315). `.error ()` marks a
thrown `TypeError`: `'name' in raw[0]` when `raw[0]` is `null`, or
`it.name` on a `null` element in the name/y branch. -/
def parsePieData (raw : JVal) : Except Unit (List PieDatum) :=
  if !(jtruthy raw) then .ok []
  else
    match raw with
    | .arr (first :: rest) =>
      (match first with
       | .null => .error ()
       | .obj f =>
         if jHas f "name" && (jHas f "y" || jHas f "value") then mapNameY (.obj f :: rest)
         else pairsOrLast (.obj f :: rest)
       | v => pairsOrLast (v :: rest))
    | .arr [] => pairsOrLast []
    | .obj fields =>
      (match jGet fields "seriesData" with
       | some (.arr arr) =>
         let items := arr.filterMap seriesItemOf
         (match drillMapOf fields with
          | some (.obj dfs) => .ok (items.map (attachDrill (.obj dfs)))
          | some (.arr dxs) => .ok (items.map (attachDrill (.arr dxs)))
          | _ => .ok items)
       | _ =>
         .ok (fields.map (fun kv =>
           match sumValue kv.2 with
           | (s, d) => ⟨some (.str kv.1), some s, d⟩)))
    | _ => .ok []

/-- An item as `EChartPie` receives it: a numeric value or a
category→count record. -/
structure ChartItem where
  label : Option JVal
  value : JNum ⊕ Drill
  drill : Option Drill

/-- `parsePieData` entries are handed to `EChartPie` as numeric items. -/
def toChartItem (p : PieDatum) : ChartItem := ⟨p.label, .inl p.value, p.drill⟩

/-- A normalized pie entry inside `EChartPie`. -/
structure NormItem where
  name : Option JVal
  value : JNum
  drill : Option Drill

/-- One step of `normPre` (StatsDetail.tsx lines 65-70): a numeric value
passes through with `it.drill ?? null`; a record value is summed
(`Number(v) || 0` over its numeric values) and becomes its own drill. -/
def normOf (it : ChartItem) : NormItem :=
  match it.value with
  | .inl jn => ⟨it.label, jn, it.drill⟩
  | .inr obj => ⟨it.label, some (obj.foldl (fun s kv => s + kv.2) 0), some obj⟩

def jnIsNaN : JNum → Bool
  | none => true
  | some _ => false

def jnGt0 : JNum → Bool
  | some q => decide (0 < q)
  | none => false

/-- `norm` (line 71): drop NaN and non-positive entries. -/
def echartNorm (items : List ChartItem) : List NormItem :=
  (items.map normOf).filter (fun it => !(jnIsNaN it.value) && jnGt0 it.value)

/-- Addition with NaN propagation. -/
def jnAdd : JNum → JNum → JNum
  | some a, some b => some (a + b)
  | _, _ => none

/-- `<` with NaN comparing false. -/
def jnLt : JNum → JNum → Bool
  | some a, some b => decide (a < b)
  | _, _ => false

def jnDiv (a : JNum) (d : ℚ) : JNum :=
  match a with
  | some x => some (x / d)
  | none => none

/-- `otherDrill[k] = (otherDrill[k] || 0) + num`: insert or add in
place. -/
def drillAdd (od : Drill) (k : String) (n : ℚ) : Drill :=
  match od.find? (fun kv => kv.1 == k) with
  | some _ => od.map (fun kv => if kv.1 == k then (kv.1, kv.2 + n) else kv)
  | none => od ++ [(k, n)]

/-- The `dataForChart.filter` body of the Other-bucketing (lines 82-92),
threading the kept entries, the `Other` sum and the merged drill map. -/
def groupStep (thresh : JNum) (acc : List NormItem × JNum × Drill) (it : NormItem) :
    List NormItem × JNum × Drill :=
  if jnLt it.value thresh then
    (acc.1, jnAdd acc.2.1 it.value,
      match it.drill with
      | some d => d.foldl (fun od kv => drillAdd od kv.1 kv.2) acc.2.2
      | none => acc.2.2)
  else (acc.1 ++ [it], acc.2.1, acc.2.2)

/-- The running total `reduce((s, it) => s + it.value, 0)`. -/
def jnSum (items : List NormItem) : JNum :=
  items.foldl (fun s it => jnAdd s it.value) (some 0)

/-- `EChartPie`'s Other-bucketing (lines 78-95): with more than 20
entries, those below `total/200` are merged into a synthetic `Other`
entry appended only when its sum is positive. -/
def groupSmallToOther (items : List NormItem) : List NormItem :=
  if 20 < items.length then
    let r := items.foldl (groupStep (jnDiv (jnSum items) 200)) ([], some 0, [])
    if jnGt0 r.2.1 then
      r.1 ++ [⟨some (.str "Other"), r.2.1, if r.2.2.isEmpty then none else some r.2.2⟩]
    else r.1
  else items

/-- Insert before the first strictly smaller value: the stable
descending insertion behind `sort((a, b) => b.value - a.value)`. -/
def insDesc (x : NormItem) : List NormItem → List NormItem
  | [] => [x]
  | y :: ys => if jnLt y.value x.value then x :: y :: ys else y :: insDesc x ys

def sortDesc (items : List NormItem) : List NormItem :=
  items.foldl (fun acc x => insDesc x acc) []

/-- The pie data `EChartPie` finally renders. -/
def echartDataForChart (items : List ChartItem) : List NormItem :=
  sortDesc (groupSmallToOther (echartNorm items))

/-- Spec-side (C5 wording): the entries individually smaller than
`total/200`. -/
def smallEntries (items : List NormItem) : List NormItem :=
  items.filter (fun it => jnLt it.value (jnDiv (jnSum items) 200))

/-- Spec-side (C5 wording): the entries that stay. -/
def keptEntries (items : List NormItem) : List NormItem :=
  items.filter (fun it => !(jnLt it.value (jnDiv (jnSum items) 200)))

/-- Spec-side (C5 wording): the merged drill maps of the small entries. -/
def mergedDrill (items : List NormItem) : Drill :=
  (smallEntries items).foldl (fun od it =>
    match it.drill with
    | some d => d.foldl (fun o kv => drillAdd o kv.1 kv.2) od
    | none => od) []

/-- The C1 example payload \x7b"A": 5, "B": -3, "C": "oops"\x7d. -/
def rawABC : JVal := .obj [("A", .num 5), ("B", .num (-3)), ("C", .str "oops")]

/-- C1.  Every pie entry emitted for rendering has a strictly positive
finite value: after `parsePieData` reduces entries to numeric totals and
`EChartPie` filters them, each surviving entry's value is a rational
`q > 0` (NaN is `none` and never survives).  In particular the payload
`\x7b"A": 5, "B": -3, "C": "oops"\x7d` yields A with 5 while B and C
are excluded. -/
theorem echartPie_positive :
    (∀ (items : List ChartItem) (e : NormItem), e ∈ echartNorm items →
      ∃ q : ℚ, e.value = some q ∧ 0 < q) ∧
    (∀ (raw : JVal) (entries : List PieDatum), parsePieData raw = .ok entries →
      ∀ e ∈ echartNorm (entries.map toChartItem), ∃ q : ℚ, e.value = some q ∧ 0 < q) ∧
    (parsePieData rawABC = .ok
      [⟨some (.str "A"), some 5, none⟩, ⟨some (.str "B"), some (-3), none⟩,
       ⟨some (.str "C"), some 0, none⟩] ∧
     echartNorm (([⟨some (.str "A"), some 5, none⟩, ⟨some (.str "B"), some (-3), none⟩,
       ⟨some (.str "C"), some 0, none⟩] : List PieDatum).map toChartItem) =
       [⟨some (.str "A"), some 5, none⟩]) := by
  have hpos : ∀ (items : List ChartItem) (e : NormItem), e ∈ echartNorm items →
      ∃ q : ℚ, e.value = some q ∧ 0 < q := by
    intro items e he
    rw [echartNorm] at he
    have h2 := (List.mem_filter.mp he).2
    rw [Bool.and_eq_true] at h2
    rcases hv : e.value with _ | q
    · rw [hv] at h2
      exact absurd h2.1 (by simp [jnIsNaN])
    · rw [hv] at h2
      exact ⟨q, rfl, of_decide_eq_true h2.2⟩
  exact ⟨hpos, fun raw entries _ => hpos (entries.map toChartItem),
    by with_unfolding_all rfl, by with_unfolding_all rfl⟩

/-- Witness for C1: the surviving A entry of the example payload. -/
theorem echartPie_positive_witness :
    ((⟨some (.str "A"), some 5, none⟩ : NormItem) ∈
      echartNorm (([⟨some (.str "A"), some 5, none⟩, ⟨some (.str "B"), some (-3), none⟩,
        ⟨some (.str "C"), some 0, none⟩] : List PieDatum).map toChartItem)) ∧
    (∃ q : ℚ, (⟨some (.str "A"), some 5, none⟩ : NormItem).value = some q ∧ 0 < q) := by
  have h : echartNorm (([⟨some (.str "A"), some 5, none⟩, ⟨some (.str "B"), some (-3), none⟩,
      ⟨some (.str "C"), some 0, none⟩] : List PieDatum).map toChartItem) =
      [⟨some (.str "A"), some 5, none⟩] := by with_unfolding_all rfl
  have hmem : (⟨some (.str "A"), some 5, none⟩ : NormItem) ∈
      echartNorm (([⟨some (.str "A"), some 5, none⟩, ⟨some (.str "B"), some (-3), none⟩,
        ⟨some (.str "C"), some 0, none⟩] : List PieDatum).map toChartItem) := by
    rw [h]
    exact List.mem_singleton.mpr rfl
  exact ⟨hmem, echartPie_positive.1 _ _ hmem⟩

theorem groupStep_foldl (thresh : JNum) (items : List NormItem) :
    ∀ (k0 : List NormItem) (s0 : JNum) (d0 : Drill),
      items.foldl (groupStep thresh) (k0, s0, d0) =
        (k0 ++ items.filter (fun it => !(jnLt it.value thresh)),
         (items.filter (fun it => jnLt it.value thresh)).foldl
           (fun s it => jnAdd s it.value) s0,
         (items.filter (fun it => jnLt it.value thresh)).foldl
           (fun od it =>
             match it.drill with
             | some d => d.foldl (fun o kv => drillAdd o kv.1 kv.2) od
             | none => od) d0) := by
  induction items with
  | nil => intro k0 s0 d0; simp
  | cons a items ih =>
    intro k0 s0 d0
    by_cases ha : jnLt a.value thresh = true
    · rw [List.foldl_cons]
      have hstep : groupStep thresh (k0, s0, d0) a =
          (k0, jnAdd s0 a.value,
            match a.drill with
            | some d => d.foldl (fun od kv => drillAdd od kv.1 kv.2) d0
            | none => d0) := by
        rw [groupStep, if_pos ha]
      rw [hstep, ih]
      simp only [List.filter_cons, ha, Bool.not_true, Bool.false_eq_true, if_false, if_true,
        List.foldl_cons]
    · have ha' : jnLt a.value thresh = false := by
        cases h : jnLt a.value thresh
        · rfl
        · exact absurd h ha
      rw [List.foldl_cons]
      have hstep : groupStep thresh (k0, s0, d0) a = (k0 ++ [a], s0, d0) := by
        rw [groupStep, if_neg (by rw [ha']; exact Bool.false_ne_true)]
      rw [hstep, ih]
      simp only [List.filter_cons, ha', Bool.not_false, Bool.false_eq_true, if_false, if_true,
        List.append_assoc, List.singleton_append]

/-- The C5 example: 24 unit categories and one of 1000. -/
def items25 : List ChartItem :=
  List.replicate 24 ⟨some (.str "s"), .inl (some 1), none⟩ ++
    [⟨some (.str "big"), .inl (some 1000), none⟩]

theorem append_ite (c : Prop) [Decidable c] (A B : List NormItem) :
    A ++ (if c then B else []) = if c then A ++ B else A := by
  by_cases h : c
  · rw [if_pos h, if_pos h]
  · rw [if_neg h, if_neg h, List.append_nil]

/-- C5.  With more than 20 entries, exactly those individually smaller
than `total/200` are removed and merged into one synthetic `Other`
entry, summing their values and drill maps, and `Other` is appended only
when its sum is positive; at most 20 entries pass through unchanged.
Given 24 categories of 1 and one of 1000, the rendered data is exactly
the 1000 slice followed by `Other` with 24. -/
theorem groupSmallToOther_spec :
    (∀ items : List NormItem, 20 < items.length →
      groupSmallToOther items =
        keptEntries items ++
        (if jnGt0 (jnSum (smallEntries items)) then
          [⟨some (.str "Other"), jnSum (smallEntries items),
            if (mergedDrill items).isEmpty then none else some (mergedDrill items)⟩]
        else [])) ∧
    (∀ items : List NormItem, items.length ≤ 20 → groupSmallToOther items = items) ∧
    (echartDataForChart items25 =
      [⟨some (.str "big"), some 1000, none⟩, ⟨some (.str "Other"), some 24, none⟩]) := by
  refine ⟨?_, ?_, ?_⟩
  · intro items hlen
    rw [append_ite]
    simp only [groupSmallToOther, if_pos hlen]
    rw [groupStep_foldl (jnDiv (jnSum items) 200) items [] (some 0) []]
    simp only [keptEntries, smallEntries, mergedDrill, jnSum, List.nil_append]
  · intro items hlen
    rw [groupSmallToOther, if_neg (by omega)]
  · with_unfolding_all rfl

/-- Witness for C5 on the normalized 25-entry example. -/
theorem groupSmallToOther_witness :
    20 < (echartNorm items25).length ∧
    groupSmallToOther (echartNorm items25) =
      keptEntries (echartNorm items25) ++
      (if jnGt0 (jnSum (smallEntries (echartNorm items25))) then
        [⟨some (.str "Other"), jnSum (smallEntries (echartNorm items25)),
          if (mergedDrill (echartNorm items25)).isEmpty then none
          else some (mergedDrill (echartNorm items25))⟩]
      else []) :=
  ⟨by with_unfolding_all decide,
    groupSmallToOther_spec.1 (echartNorm items25) (by with_unfolding_all decide)⟩
